import Mathlib

/-!
Verification development for the AES67 macOS driver network engine.

Shallow embedding of the C++ sources in `src/` into Lean 4:
machine integers become `Nat`/`Int` with explicit `% 2^w` where overflow can
occur, `std::string` becomes `List Char`, fallible code returns `Option`,
and stateful classes become explicit state-passing functions.
-/

set_option maxRecDepth 8000

namespace AES67

/-- `std::string` is embedded as a list of characters. -/
abbrev Str := List Char

/-! ## StreamID (src/Shared/Types.cpp)

A 128-bit identifier stored as 16 bytes; the all-zero value is the
distinguished null id.  Bytes are modelled as `Nat` (each < 256 in use). -/

structure StreamID where
  bytes : List Nat
deriving DecidableEq, Repr

/-- `StreamID::null()` / the default constructor: 16 zero bytes. -/
def StreamID.null : StreamID := ⟨List.replicate 16 0⟩

/-- `StreamID::isNull()`: all bytes zero. -/
def StreamID.isNull (s : StreamID) : Bool := s.bytes.all (· = 0)

/-! ## ChannelMapping (src/NetworkEngine/StreamChannelMapper.{h,cpp})

`streamChannelCount`, `deviceChannelStart`, `deviceChannelCount` are
`uint16_t`; `channelMap` is `std::vector<int>`.  The additions below
(`deviceChannelStart + deviceChannelCount`) are performed after integral
promotion to `int` in C++ and cannot overflow, so plain `Nat` arithmetic is
faithful. -/

structure ChannelMapping where
  streamID : StreamID := StreamID.null
  streamName : Str := []
  streamChannelCount : Nat := 0
  streamChannelOffset : Nat := 0
  deviceChannelStart : Nat := 0
  deviceChannelCount : Nat := 0
  channelMap : List Int := []
deriving DecidableEq, Repr

/-- `StreamChannelMapper::kMaxDeviceChannels`. -/
def kMaxDeviceChannels : Nat := 128

/-- `ChannelMapping::getValidationError` (StreamChannelMapper.cpp:22-48):
the if-chain of checks, returning the first error message, or `""`. -/
def ChannelMapping.getValidationError (m : ChannelMapping) : Str :=
  if m.streamID.isNull then "Stream ID is null".toList
  else if m.streamChannelCount = 0 then "Stream channel count must be non-zero".toList
  else if m.deviceChannelCount = 0 then "Device channel count must be non-zero".toList
  else if m.deviceChannelStart ≥ kMaxDeviceChannels then
    "Device channel start out of range (0-127)".toList
  else if m.deviceChannelStart + m.deviceChannelCount > kMaxDeviceChannels then
    "Device channel range exceeds maximum (128 channels)".toList
  else if m.channelMap ≠ [] ∧ m.channelMap.length ≠ m.streamChannelCount then
    "Custom channel map size doesn't match stream channel count".toList
  else []

/-- `ChannelMapping::isValid` (StreamChannelMapper.cpp:18-20):
`return !getValidationError().empty();` — note the polarity. -/
def ChannelMapping.isValid (m : ChannelMapping) : Bool :=
  !(m.getValidationError.isEmpty)

/-- `ChannelMapping::containsDeviceChannel` (StreamChannelMapper.cpp:50-59). -/
def ChannelMapping.containsDeviceChannel (m : ChannelMapping) (deviceCh : Int) : Bool :=
  if m.channelMap = [] then
    decide ((m.deviceChannelStart : Int) ≤ deviceCh ∧
            deviceCh < (m.deviceChannelStart : Int) + (m.deviceChannelCount : Int))
  else
    m.channelMap.contains deviceCh

/-! ## StreamChannelMapper state and operations

`mappings_` is a `std::map<StreamID, ChannelMapping>`; only key-uniqueness
and lookup matter for the claims, so it is embedded as an association list
with insert-or-replace.  `deviceChannelOwners_` is a 128-slot array embedded
as a total function; all source writes are at indices in `[0, 128)`. -/

structure MapperState where
  mappings : List (StreamID × ChannelMapping)
  owners : Nat → StreamID

/-- Fresh mapper (constructor, StreamChannelMapper.cpp:65-70): all device
channels unassigned. -/
def MapperState.init : MapperState :=
  { mappings := [], owners := fun _ => StreamID.null }

/-- Key-unique insert-or-replace for the `std::map` of mappings. -/
def mapInsertSID (l : List (StreamID × ChannelMapping)) (k : StreamID)
    (v : ChannelMapping) : List (StreamID × ChannelMapping) :=
  match l with
  | [] => [(k, v)]
  | (k', v') :: rest =>
    if k = k' then (k, v) :: rest else (k', v') :: mapInsertSID rest k v

/-- Lookup in the mapping table (`mappings_.find`). -/
def mapLookupSID (l : List (StreamID × ChannelMapping)) (k : StreamID) :
    Option ChannelMapping :=
  match l with
  | [] => none
  | (k', v') :: rest => if k = k' then some v' else mapLookupSID rest k

/-- `StreamChannelMapper::validateMapping` (StreamChannelMapper.cpp:199-210):
true iff `getValidationError()` is empty. -/
def validateMapping (m : ChannelMapping) : Bool :=
  m.getValidationError.isEmpty

/-- `StreamChannelMapper::isOverlapWithStream` (StreamChannelMapper.cpp:401-414):
scans only the sequential range `[deviceChannelStart,
deviceChannelStart + deviceChannelCount)`, regardless of `channelMap`. -/
def isOverlapWithStream (st : MapperState) (m : ChannelMapping)
    (excludeStream : StreamID) : Bool :=
  (List.range m.deviceChannelCount).any fun i =>
    let owner := st.owners (m.deviceChannelStart + i)
    !owner.isNull && owner ≠ excludeStream

/-- `StreamChannelMapper::updateDeviceChannelOwners`
(StreamChannelMapper.cpp:367-384).  Sequential mappings stamp the range
(all indices < 128 at every call site, by prior validation); custom mappings
stamp exactly the in-range entries of `channelMap`. -/
def updateDeviceChannelOwners (owners : Nat → StreamID) (m : ChannelMapping) :
    Nat → StreamID :=
  if m.channelMap = [] then
    fun k => if m.deviceChannelStart ≤ k ∧ k < m.deviceChannelStart + m.deviceChannelCount
             then m.streamID else owners k
  else
    m.channelMap.foldl
      (fun o deviceCh =>
        if 0 ≤ deviceCh ∧ deviceCh < (kMaxDeviceChannels : Int) then
          fun k => if (k : Int) = deviceCh then m.streamID else o k
        else o)
      owners

/-- `StreamChannelMapper::clearDeviceChannelOwners`
(StreamChannelMapper.cpp:386-394): nulls every slot (all slots live in
`[0,128)`) owned by `streamID`. -/
def clearDeviceChannelOwners (owners : Nat → StreamID) (streamID : StreamID) :
    Nat → StreamID :=
  fun k => if k < kMaxDeviceChannels ∧ owners k = streamID then StreamID.null else owners k

/-- `StreamChannelMapper::addMapping` (StreamChannelMapper.cpp:74-93).
Returns the C++ return value and the post-state. -/
def addMapping (st : MapperState) (m : ChannelMapping) : Bool × MapperState :=
  if ¬ validateMapping m then (false, st)
  else if isOverlapWithStream st m StreamID.null then (false, st)
  else (true,
    { mappings := mapInsertSID st.mappings m.streamID m,
      owners := updateDeviceChannelOwners st.owners m })

/-- `StreamChannelMapper::removeMapping` (StreamChannelMapper.cpp:95-107). -/
def removeMapping (st : MapperState) (streamID : StreamID) : Bool × MapperState :=
  match mapLookupSID st.mappings streamID with
  | none => (false, st)
  | some _ => (true,
    { mappings := st.mappings.filter (fun kv => kv.fst ≠ streamID),
      owners := clearDeviceChannelOwners st.owners streamID })

/-- `StreamChannelMapper::updateMapping` (StreamChannelMapper.cpp:109-131). -/
def updateMapping (st : MapperState) (m : ChannelMapping) : Bool × MapperState :=
  if ¬ validateMapping m then (false, st)
  else if isOverlapWithStream st m m.streamID then (false, st)
  else (true,
    { mappings := mapInsertSID (st.mappings) m.streamID m,
      owners := updateDeviceChannelOwners
        (clearDeviceChannelOwners st.owners m.streamID) m })

/-- `StreamChannelMapper::clearAll` (StreamChannelMapper.cpp:157-164). -/
def clearAll (_st : MapperState) : MapperState := MapperState.init

end AES67

namespace AES67

/-! ## Characterizing mapping validation -/

/-- `getValidationError` is empty exactly when every check in its if-chain
passes.  (Note the chain checks the size of a non-empty `channelMap` but not
the range or distinctness of its entries.) -/
theorem getValidationError_empty_iff (m : ChannelMapping) :
    m.getValidationError = [] ↔
      (¬ m.streamID.isNull ∧ m.streamChannelCount ≠ 0 ∧ m.deviceChannelCount ≠ 0 ∧
       m.deviceChannelStart < 128 ∧ m.deviceChannelStart + m.deviceChannelCount ≤ 128 ∧
       (m.channelMap = [] ∨ m.channelMap.length = m.streamChannelCount)) := by
  unfold ChannelMapping.getValidationError kMaxDeviceChannels
  split_ifs with h1 h2 h3 h4 h5 h6
  · exact iff_of_false (by decide) (by tauto)
  · exact iff_of_false (by decide) (by tauto)
  · exact iff_of_false (by decide) (by tauto)
  · exact iff_of_false (by decide) (by rintro ⟨-, -, -, hlt, -, -⟩; omega)
  · exact iff_of_false (by decide) (by rintro ⟨-, -, -, -, hle, -⟩; omega)
  · exact iff_of_false (by decide) (by tauto)
  · refine iff_of_true rfl ⟨h1, h2, h3, by omega, by omega, ?_⟩
    by_cases hc : m.channelMap = []
    · exact Or.inl hc
    · push_neg at h6
      exact Or.inr (h6 hc)

/-! ## Concrete inputs used in the router claims -/

/-- A non-null stream id (first byte 1). -/
def sidOne : StreamID := ⟨1 :: List.replicate 15 0⟩

/-- A second non-null stream id (first byte 2). -/
def sidTwo : StreamID := ⟨2 :: List.replicate 15 0⟩

/-- Sequential mapping of stream `sidOne` onto device channels `[0, 2)`. -/
def mapSeqA : ChannelMapping :=
  { streamID := sidOne, streamChannelCount := 2, deviceChannelCount := 2,
    deviceChannelStart := 0 }

/-- Custom mapping of stream `sidTwo`: declared sequential window `[10, 12)`
but `channelMap = [0, 11]`, so it actually claims device channels 0 and 11. -/
def mapCustB : ChannelMapping :=
  { streamID := sidTwo, streamChannelCount := 2, deviceChannelCount := 2,
    deviceChannelStart := 10, channelMap := [0, 11] }

/-- A mapping whose custom `channelMap` entries are out of range and
duplicated, but of the right length. -/
def mapBadEntries : ChannelMapping :=
  { streamID := sidOne, streamChannelCount := 2, deviceChannelCount := 2,
    deviceChannelStart := 0, channelMap := [200, 200] }

/-- C1: the single-ownership invariant is violated by the code.  Admitting
`mapSeqA` (claiming slots 0 and 1) and then `mapCustB` (a custom map
claiming slots 0 and 11) both succeed, because `isOverlapWithStream` only
scans the sequential window `[10, 12)`; `updateDeviceChannelOwners` then
stamps slot 0 with `sidTwo` even though the admitted mapping of `sidOne`
still claims slot 0.  Two admitted mappings claim slot 0 at once. -/
theorem addMapping_customMap_overwrites_foreign_slot :
    (addMapping MapperState.init mapSeqA).1 = true ∧
    (addMapping (addMapping MapperState.init mapSeqA).2 mapCustB).1 = true ∧
    ((addMapping (addMapping MapperState.init mapSeqA).2 mapCustB).2.owners 0 = sidTwo) ∧
    mapLookupSID (addMapping (addMapping MapperState.init mapSeqA).2 mapCustB).2.mappings
      sidOne = some mapSeqA ∧
    mapSeqA.containsDeviceChannel 0 = true ∧
    mapCustB.containsDeviceChannel 0 = true ∧
    sidTwo ≠ sidOne := by
  decide

/-- C3 counterexample: `addMapping` accepts a mapping whose custom
`channelMap` has out-of-range and duplicate entries — the claimed
"each in [0, 128) with no duplicates" condition is never checked. -/
theorem addMapping_accepts_bad_channelMap_entries :
    (addMapping MapperState.init mapBadEntries).1 = true ∧
    ¬ (∀ ch ∈ mapBadEntries.channelMap, 0 ≤ ch ∧ ch < 128) ∧
    ¬ mapBadEntries.channelMap.Nodup := by
  decide

/-- C3 (amended): `addMapping` returns true only if the stream id is
non-null, both channel counts are non-zero, the sequential window fits in
`[0, 128)`, and the custom `channelMap` is either empty or has exactly
`streamChannelCount` entries (their values are not checked); a refused
mapping leaves the router state unchanged. -/
theorem addMapping_validation_characterization (st : MapperState) (m : ChannelMapping) :
    ((addMapping st m).1 = true →
      (¬ m.streamID.isNull ∧ m.streamChannelCount ≠ 0 ∧ m.deviceChannelCount ≠ 0 ∧
       m.deviceChannelStart + m.deviceChannelCount ≤ 128 ∧
       (m.channelMap = [] ∨ m.channelMap.length = m.streamChannelCount))) ∧
    ((addMapping st m).1 = false → (addMapping st m).2 = st) := by
  constructor
  · intro h
    have hv : validateMapping m := by
      by_contra hv
      simp [addMapping, hv] at h
    have he : m.getValidationError = [] := by
      simpa [validateMapping, List.isEmpty_iff] using hv
    have := (getValidationError_empty_iff m).1 he
    tauto
  · intro h
    unfold addMapping at h ⊢
    split_ifs at h ⊢ <;> simp_all

/-- Witness for the amended C3 theorem at the concrete admitted mapping
`mapSeqA` from the empty router. -/
theorem addMapping_validation_characterization_witness :
    ¬ mapSeqA.streamID.isNull ∧ mapSeqA.streamChannelCount ≠ 0 ∧
    mapSeqA.deviceChannelCount ≠ 0 ∧
    mapSeqA.deviceChannelStart + mapSeqA.deviceChannelCount ≤ 128 ∧
    (mapSeqA.channelMap = [] ∨ mapSeqA.channelMap.length = mapSeqA.streamChannelCount) :=
  (addMapping_validation_characterization MapperState.init mapSeqA).1 (by decide)

/-- A mapping passing every validity condition (used for C10). -/
def mapFullyValid : ChannelMapping :=
  { streamID := sidOne, streamChannelCount := 4, deviceChannelCount := 4,
    deviceChannelStart := 8 }

/-- A mapping with a null stream id (used for C10). -/
def mapNullId : ChannelMapping :=
  { streamID := StreamID.null, streamChannelCount := 4, deviceChannelCount := 4,
    deviceChannelStart := 8 }

/-- C10: `ChannelMapping::isValid` returns `!getValidationError().empty()`,
so its polarity is inverted: it is true exactly when a validation error
exists.  A mapping passing every check has `isValid() = false`; a mapping
with a null stream id has `isValid() = true`. -/
theorem isValid_polarity_inverted :
    (∀ m : ChannelMapping, m.isValid = true ↔ m.getValidationError ≠ []) ∧
    mapFullyValid.isValid = false ∧
    mapNullId.isValid = true := by
  refine ⟨fun m => ?_, by decide, by decide⟩
  simp [ChannelMapping.isValid, List.isEmpty_iff]

end AES67

namespace AES67

/-! ## SPSCRingBuffer (src/Shared/RingBuffer.hpp)

The template class is embedded as a state record over an arbitrary element
type `T`.  `buffer_` is a `std::vector<T>` of `capacity + 1` slots
(one reserved to distinguish full from empty); `writeIndex_`/`readIndex_`
are the two cursors.  The atomic loads/stores order memory between the two
threads; the sequential data transformation embedded here is exactly the
source's index arithmetic and one- or two-chunk `memcpy` copies. -/

structure RingState (T : Type) where
  buffer : List T
  cap : Nat          -- `capacity_` = constructor argument + 1
  writeIndex : Nat
  readIndex : Nat

/-- The constructor `SPSCRingBuffer(capacity)`: `capacity + 1` slots. -/
def mkRing (T : Type) (capacity : Nat) (dflt : T) : RingState T :=
  { buffer := List.replicate (capacity + 1) dflt,
    cap := capacity + 1, writeIndex := 0, readIndex := 0 }

/-- `getAvailableRead(readIdx, writeIdx)` (RingBuffer.hpp:173-179). -/
def getAvailRead (cap readIdx writeIdx : Nat) : Nat :=
  if writeIdx ≥ readIdx then writeIdx - readIdx else cap - readIdx + writeIdx

/-- `getAvailableWrite(writeIdx, readIdx)` (RingBuffer.hpp:183-189). -/
def getAvailWrite (cap writeIdx readIdx : Nat) : Nat :=
  if readIdx > writeIdx then readIdx - writeIdx - 1 else cap - writeIdx + readIdx - 1

/-- `available()`: elements ready to read. -/
def RingState.available (st : RingState T) : Nat :=
  getAvailRead st.cap st.readIndex st.writeIndex

/-- `availableWrite()`: free space. -/
def RingState.availableWrite (st : RingState T) : Nat :=
  getAvailWrite st.cap st.writeIndex st.readIndex

/-- In-place overwrite of a list at a position (the effect of
`memcpy(&buffer_[pos], src, n)` on the vector). -/
def overwriteAt (l : List T) (pos : Nat) (src : List T) : List T :=
  l.take pos ++ src ++ l.drop (pos + src.length)

/-- `write(data, count)` (RingBuffer.hpp:54-83): returns the reported count
and the post-state.  The caller guarantees `count ≤ data.length` (in C the
pointer must address `count` valid elements). -/
def RingState.write (st : RingState T) (data : List T) (count : Nat) :
    Nat × RingState T :=
  let toWrite := min count (getAvailWrite st.cap st.writeIndex st.readIndex)
  if toWrite = 0 then (0, st)
  else
    let d := data.take toWrite
    let firstChunk := min toWrite (st.cap - st.writeIndex)
    let buf1 := overwriteAt st.buffer st.writeIndex (d.take firstChunk)
    let buf2 := if firstChunk < toWrite then overwriteAt buf1 0 (d.drop firstChunk) else buf1
    (toWrite, { st with buffer := buf2,
                        writeIndex := (st.writeIndex + toWrite) % st.cap })

/-- `read(data, count)` (RingBuffer.hpp:90-119): returns the reported count,
the elements copied out, and the post-state. -/
def RingState.read (st : RingState T) (count : Nat) :
    Nat × List T × RingState T :=
  let toRead := min count (getAvailRead st.cap st.readIndex st.writeIndex)
  if toRead = 0 then (0, [], st)
  else
    let firstChunk := min toRead (st.cap - st.readIndex)
    let vals := (st.buffer.drop st.readIndex).take firstChunk ++
                st.buffer.take (toRead - firstChunk)
    (toRead, vals, { st with readIndex := (st.readIndex + toRead) % st.cap })

/-- `reset()` (RingBuffer.hpp:145-148). -/
def RingState.reset (st : RingState T) : RingState T :=
  { st with writeIndex := 0, readIndex := 0 }

/-- `capacity()` (RingBuffer.hpp:153-155). -/
def RingState.capacity (st : RingState T) : Nat := st.cap - 1

/-- `isEmpty()` (RingBuffer.hpp:160-162). -/
def RingState.isEmpty (st : RingState T) : Bool := st.available = 0

/-- `isFull()` (RingBuffer.hpp:167-169). -/
def RingState.isFull (st : RingState T) : Bool := st.availableWrite = 0

/-- Structural well-formedness maintained by every operation. -/
def RingState.WF (st : RingState T) : Prop :=
  st.buffer.length = st.cap ∧ 0 < st.cap ∧ st.writeIndex < st.cap ∧ st.readIndex < st.cap

/-- The abstract queue content: the elements between the read cursor and the
write cursor, in FIFO order. -/
def RingState.contents (st : RingState T) : List T :=
  if st.writeIndex ≥ st.readIndex then
    (st.buffer.drop st.readIndex).take (st.writeIndex - st.readIndex)
  else
    st.buffer.drop st.readIndex ++ st.buffer.take st.writeIndex

theorem RingState.contents_length (st : RingState T) (hwf : st.WF) :
    st.contents.length = st.available := by
  obtain ⟨hbuf, hcap, hw, hr⟩ := hwf
  unfold RingState.contents RingState.available getAvailRead
  split_ifs with h <;> simp [hbuf] <;> omega

theorem mkRing_wf (T : Type) (capacity : Nat) (d : T) : (mkRing T capacity d).WF := by
  unfold mkRing RingState.WF
  simp

theorem mkRing_contents (T : Type) (capacity : Nat) (d : T) :
    (mkRing T capacity d).contents = [] := by
  unfold mkRing RingState.contents
  simp

end AES67

namespace AES67

theorem overwriteAt_length (l src : List T) (pos : Nat)
    (h : pos + src.length ≤ l.length) :
    (overwriteAt l pos src).length = l.length := by
  unfold overwriteAt
  simp
  omega

theorem getAvailWrite_lt_cap (cap w r : Nat) (hw : w < cap) (hr : r < cap) :
    getAvailWrite cap w r ≤ cap - 1 := by
  unfold getAvailWrite
  split_ifs <;> omega

/-- `write` reports `min(count, free space)` elements, keeps the state
well-formed, and appends exactly the accepted prefix of `data` to the
abstract FIFO content — including across the two-chunk wrap-around copy. -/
theorem RingState.write_spec (st : RingState T) (data : List T) (count : Nat)
    (hwf : st.WF) (hcount : count ≤ data.length) :
    (st.write data count).1 = min count st.availableWrite ∧
    (st.write data count).2.WF ∧
    (st.write data count).2.contents =
      st.contents ++ data.take (st.write data count).1 := by
  obtain ⟨buf, cap, w, r⟩ := st
  obtain ⟨hbuf, hcap, hw, hr⟩ := hwf
  simp only at hbuf hcap hw hr
  unfold RingState.write RingState.availableWrite
  dsimp only
  set n := min count (getAvailWrite cap w r) with hndef
  have havail : n ≤ getAvailWrite cap w r := min_le_right _ _
  have hncount : n ≤ count := min_le_left _ _
  have havailcap : getAvailWrite cap w r ≤ cap - 1 := getAvailWrite_lt_cap cap w r hw hr
  have hdlen : (data.take n).length = n := by
    simp
    omega
  by_cases h0 : n = 0
  · rw [if_pos h0]
    refine ⟨by omega, ⟨hbuf, hcap, hw, hr⟩, by simp [h0]⟩
  · rw [if_neg h0]
    set d := data.take n with hddef
    set fc := min n (cap - w) with hfcdef
    have hfcn : fc ≤ n := min_le_left _ _
    have hfccw : fc ≤ cap - w := min_le_right _ _
    have hdfc : (d.take fc).length = fc := by
      simp [hdlen]
      omega
    have htw : (buf.take w).length = w := by
      simp
      omega
    refine ⟨rfl, ?_, ?_⟩
    · -- well-formedness of the post-state
      refine ⟨?_, hcap, Nat.mod_lt _ hcap, hr⟩
      dsimp only
      have h1 : w + (d.take fc).length ≤ buf.length := by
        rw [hdfc, hbuf]
        omega
      have hlen1 : (overwriteAt buf w (d.take fc)).length = cap :=
        (overwriteAt_length _ _ _ h1).trans hbuf
      split_ifs with hwrap
      · have h2 : 0 + (d.drop fc).length ≤ (overwriteAt buf w (d.take fc)).length := by
          rw [hlen1]
          simp [hdlen]
          omega
        exact (overwriteAt_length _ _ _ h2).trans hlen1
      · exact hlen1
    · -- contents of the post-state
      dsimp only
      by_cases hwrap : fc < n
      · -- two-chunk wrap-around copy
        rw [if_pos hwrap]
        have hfceq : fc = cap - w := by omega
        have hrw : r ≤ w := by
          unfold getAvailWrite at havail
          split_ifs at havail <;> omega
        have hrpos : 1 ≤ r := by
          unfold getAvailWrite at havail
          split_ifs at havail <;> omega
        set k := n - fc with hkdef
        have hkr : k ≤ r - 1 := by
          unfold getAvailWrite at havail
          split_ifs at havail <;> omega
        have hbuf1 : overwriteAt buf w (d.take fc) = buf.take w ++ d.take fc := by
          unfold overwriteAt
          rw [List.drop_eq_nil_of_le (by rw [hdfc, hbuf]; omega), List.append_nil]
        have hdfc2 : (d.drop fc).length = k := by
          simp [hdlen]
        have hbuf2 : overwriteAt (buf.take w ++ d.take fc) 0 (d.drop fc) =
            d.drop fc ++ (buf.take w ++ d.take fc).drop k := by
          unfold overwriteAt
          rw [hdfc2]
          simp
        rw [hbuf1, hbuf2]
        have hwmod : (w + n) % cap = k := by
          have h1 : w + n = cap + k := by omega
          rw [h1, Nat.add_mod_left]
          exact Nat.mod_eq_of_lt (by omega)
        rw [hwmod]
        unfold RingState.contents
        dsimp only
        rw [if_neg (by omega), if_pos (by omega)]
        have e1 : (d.drop fc ++ (buf.take w ++ d.take fc).drop k).drop r =
            (buf.take w ++ d.take fc).drop r := by
          rw [List.drop_append_eq_append_drop,
              List.drop_eq_nil_of_le (by rw [hdfc2]; omega), List.nil_append,
              List.drop_drop, hdfc2]
          congr 1
          omega
        have e2 : (d.drop fc ++ (buf.take w ++ d.take fc).drop k).take k = d.drop fc := by
          rw [List.take_append_eq_append_take,
              List.take_of_length_le (by rw [hdfc2]),
              hdfc2]
          simp
        rw [e1, e2]
        rw [List.drop_append_eq_append_drop, htw,
            show r - w = 0 by omega, List.drop_zero, List.drop_take]
        rw [List.append_assoc, List.take_append_drop]
      · -- single-chunk copy
        rw [if_neg hwrap]
        have hfceq : fc = n := by omega
        have hncw : n ≤ cap - w := by omega
        have hdtake : d.take fc = d := by
          rw [hfceq]
          exact List.take_of_length_le (by omega)
        have hbuf1 : overwriteAt buf w (d.take fc) =
            buf.take w ++ d ++ buf.drop (w + n) := by
          unfold overwriteAt
          rw [hdtake, hdlen]
        rw [hbuf1]
        by_cases hrw : r ≤ w
        · have hnav : n ≤ cap - w + r - 1 := by
            unfold getAvailWrite at havail
            split_ifs at havail <;> omega
          by_cases hend : w + n < cap
          · rw [Nat.mod_eq_of_lt hend]
            unfold RingState.contents
            dsimp only
            rw [if_pos (by omega), if_pos (by omega)]
            rw [List.append_assoc, List.drop_append_eq_append_drop, htw,
                show r - w = 0 by omega, List.drop_zero]
            have hlen3 : ((buf.take w).drop r).length = w - r := by
              simp
              omega
            rw [List.take_append_eq_append_take,
                List.take_of_length_le
                  (show ((buf.take w).drop r).length ≤ w + n - r by rw [hlen3]; omega),
                hlen3, show w + n - r - (w - r) = n by omega]
            rw [List.take_append_eq_append_take,
                List.take_of_length_le (show d.length ≤ n by omega),
                show n - d.length = 0 by omega, List.take_zero, List.append_nil]
            rw [List.drop_take]
          · have hwn : w + n = cap := by omega
            have hr1 : 1 ≤ r := by omega
            rw [hwn, Nat.mod_self]
            unfold RingState.contents
            dsimp only
            rw [if_neg (by omega), if_pos (by omega)]
            rw [List.drop_eq_nil_of_le (show buf.length ≤ cap by omega), List.append_nil,
                List.take_zero, List.append_nil]
            rw [List.drop_append_eq_append_drop, htw,
                show r - w = 0 by omega, List.drop_zero, List.drop_take]
        · have hnav : n ≤ r - w - 1 := by
            unfold getAvailWrite at havail
            split_ifs at havail <;> omega
          rw [Nat.mod_eq_of_lt (by omega)]
          unfold RingState.contents
          dsimp only
          rw [if_neg (by omega), if_neg (by omega)]
          rw [List.append_assoc, List.drop_append_eq_append_drop, htw,
              List.drop_eq_nil_of_le (by rw [htw]; omega), List.nil_append]
          rw [List.drop_append_eq_append_drop,
              List.drop_eq_nil_of_le (by rw [hdlen]; omega), List.nil_append,
              List.drop_drop, hdlen,
              show w + n + (r - w - n) = r by omega]
          rw [List.take_append_eq_append_take,
              List.take_of_length_le (show (buf.take w).length ≤ w + n by rw [htw]; omega), htw,
              List.take_append_eq_append_take,
              List.take_of_length_le (show d.length ≤ w + n - w by omega),
              show w + n - w - d.length = 0 by omega, List.take_zero,
              List.append_nil]
          rw [List.append_assoc]

end AES67

namespace AES67

/-- `read` reports `min(count, available)` elements, returns exactly the
oldest such elements in FIFO order (including across the wrap-around), and
removes them from the abstract content. -/
theorem RingState.read_spec (st : RingState T) (count : Nat) (hwf : st.WF) :
    (st.read count).1 = min count st.available ∧
    (st.read count).2.2.WF ∧
    (st.read count).2.1 = st.contents.take (st.read count).1 ∧
    (st.read count).2.2.contents = st.contents.drop (st.read count).1 := by
  obtain ⟨buf, cap, w, r⟩ := st
  obtain ⟨hbuf, hcap, hw, hr⟩ := hwf
  simp only at hbuf hcap hw hr
  unfold RingState.read RingState.available
  dsimp only
  set n := min count (getAvailRead cap r w) with hndef
  have havail : n ≤ getAvailRead cap r w := min_le_right _ _
  have havcap : getAvailRead cap r w ≤ cap := by
    unfold getAvailRead
    split_ifs <;> omega
  have hdroplen : (buf.drop r).length = cap - r := by
    simp [hbuf]
  by_cases h0 : n = 0
  · rw [if_pos h0]
    exact ⟨by omega, ⟨hbuf, hcap, hw, hr⟩, by simp [h0], by simp [h0]⟩
  · rw [if_neg h0]
    set fc := min n (cap - r) with hfcdef
    have hfcn : fc ≤ n := min_le_left _ _
    have hfccr : fc ≤ cap - r := min_le_right _ _
    refine ⟨rfl, ⟨hbuf, hcap, hw, Nat.mod_lt _ hcap⟩, ?_, ?_⟩
    · -- the values read are the oldest `n` elements
      dsimp only
      by_cases hwr : r ≤ w
      · have hnwr : n ≤ w - r := by
          unfold getAvailRead at havail
          split_ifs at havail <;> omega
        have hfceq : fc = n := by omega
        rw [hfceq, show n - n = 0 by omega, List.take_zero, List.append_nil]
        unfold RingState.contents
        dsimp only
        rw [if_pos (by omega), List.take_take, show min n (w - r) = n by omega]
      · have hnwr : n ≤ cap - r + w := by
          unfold getAvailRead at havail
          split_ifs at havail <;> omega
        unfold RingState.contents
        dsimp only
        rw [if_neg (by omega)]
        by_cases hsub : n ≤ cap - r
        · have hfceq : fc = n := by omega
          rw [hfceq, show n - n = 0 by omega, List.take_zero, List.append_nil]
          rw [List.take_append_eq_append_take,
              show n - (buf.drop r).length = 0 by rw [hdroplen]; omega,
              List.take_zero, List.append_nil]
        · have hfceq : fc = cap - r := by omega
          rw [hfceq]
          rw [List.take_of_length_le (show (buf.drop r).length ≤ cap - r by rw [hdroplen])]
          rw [List.take_append_eq_append_take, hdroplen,
              List.take_of_length_le (show (buf.drop r).length ≤ n by rw [hdroplen]; omega),
              List.take_take, show min (n - (cap - r)) w = n - (cap - r) by omega]
    · -- the remaining content is the rest
      dsimp only
      by_cases hwr : r ≤ w
      · have hnwr : n ≤ w - r := by
          unfold getAvailRead at havail
          split_ifs at havail <;> omega
        have hrn : (r + n) % cap = r + n := Nat.mod_eq_of_lt (by omega)
        rw [hrn]
        unfold RingState.contents
        dsimp only
        rw [if_pos (by omega), if_pos (by omega)]
        rw [List.drop_take, List.drop_drop, show w - r - n = w - (r + n) by omega,
            show r + n = n + r by omega]
      · have hnwr : n ≤ cap - r + w := by
          unfold getAvailRead at havail
          split_ifs at havail <;> omega
        by_cases hsub : n ≤ cap - r
        · by_cases hend : r + n < cap
          · have hrn : (r + n) % cap = r + n := Nat.mod_eq_of_lt (by omega)
            unfold RingState.contents
            dsimp only
            rw [hrn, if_neg (by omega), if_neg (by omega)]
            rw [List.drop_append_eq_append_drop,
                show n - (buf.drop r).length = 0 by rw [hdroplen]; omega, List.drop_zero,
                List.drop_drop]
          · have hrncap : r + n = cap := by omega
            have hrn : (r + n) % cap = 0 := by rw [hrncap, Nat.mod_self]
            unfold RingState.contents
            dsimp only
            rw [hrn, if_pos (by omega), if_neg (by omega)]
            rw [List.drop_append_eq_append_drop,
                show n - (buf.drop r).length = 0 by rw [hdroplen]; omega, List.drop_zero,
                List.drop_drop, show r + n = cap by omega,
                List.drop_eq_nil_of_le (show buf.length ≤ cap by omega), List.nil_append]
            simp
        · have hrn : (r + n) % cap = n - (cap - r) := by
            have h1 : r + n = cap + (n - (cap - r)) := by omega
            rw [h1, Nat.add_mod_left]
            exact Nat.mod_eq_of_lt (by omega)
          unfold RingState.contents
          dsimp only
          rw [hrn, if_pos (by omega), if_neg (by omega)]
          rw [List.drop_append_eq_append_drop,
              List.drop_eq_nil_of_le (show (buf.drop r).length ≤ n by rw [hdroplen]; omega),
              List.nil_append, hdroplen, List.drop_take]

end AES67

namespace AES67

/-- One call in a compliant SPSC call sequence: a producer `write` of the
given elements, or a consumer `read` of `n` elements. -/
inductive RingOp (T : Type) where
  | wr (data : List T)
  | rd (n : Nat)

/-- Ghost trace accumulated over a call sequence: the ring state, the total
counts reported by `write`/`read`, and the concatenations of the elements
accepted by writes and returned by reads. -/
structure RingTrace (T : Type) where
  st : RingState T
  totalWritten : Nat
  totalRead : Nat
  accepted : List T
  readOut : List T

def runOp (tr : RingTrace T) : RingOp T → RingTrace T
  | .wr data =>
    let res := tr.st.write data data.length
    { st := res.2,
      totalWritten := tr.totalWritten + res.1,
      totalRead := tr.totalRead,
      accepted := tr.accepted ++ data.take res.1,
      readOut := tr.readOut }
  | .rd n =>
    let res := tr.st.read n
    { st := res.2.2,
      totalWritten := tr.totalWritten,
      totalRead := tr.totalRead + res.1,
      accepted := tr.accepted,
      readOut := tr.readOut ++ res.2.1 }

/-- Fresh trace over a fresh ring of the given capacity. -/
def initTrace (T : Type) (capacity : Nat) (d : T) : RingTrace T :=
  { st := mkRing T capacity d, totalWritten := 0, totalRead := 0,
    accepted := [], readOut := [] }

def runOps (tr : RingTrace T) (ops : List (RingOp T)) : RingTrace T :=
  ops.foldl runOp tr

/-- Trace invariant: the ring is well-formed, the accepted stream is the
returned stream followed by the residual FIFO content, and the counters are
the lengths of those streams. -/
def TraceInv (tr : RingTrace T) : Prop :=
  tr.st.WF ∧ tr.accepted = tr.readOut ++ tr.st.contents ∧
  tr.totalWritten = tr.accepted.length ∧ tr.totalRead = tr.readOut.length

theorem runOp_inv (tr : RingTrace T) (op : RingOp T) (h : TraceInv tr) :
    TraceInv (runOp tr op) := by
  obtain ⟨hwf, hacc, htw, htr⟩ := h
  cases op with
  | wr data =>
    obtain ⟨h1, h2, h3⟩ := tr.st.write_spec data data.length hwf (le_refl _)
    have hle : (tr.st.write data data.length).1 ≤ data.length := by
      rw [h1]
      exact min_le_left _ _
    refine ⟨h2, ?_, ?_, htr⟩
    · simp only [runOp, h3, hacc, List.append_assoc]
    · simp only [runOp, List.length_append, htw, List.length_take]
      omega
  | rd n =>
    obtain ⟨h1, h2, h3, h4⟩ := tr.st.read_spec n hwf
    refine ⟨h2, ?_, htw, ?_⟩
    · simp only [runOp, h3, h4, hacc, List.append_assoc, List.take_append_drop]
    · simp only [runOp, List.length_append, htr, h3, List.length_take]
      have := tr.st.contents_length hwf
      rw [h1]
      omega

theorem runOps_inv (ops : List (RingOp T)) (tr : RingTrace T) (h : TraceInv tr) :
    TraceInv (runOps tr ops) := by
  induction ops generalizing tr with
  | nil => exact h
  | cons op rest ih => exact ih _ (runOp_inv tr op h)

/-- C4: SPSC ring stream preservation.  For every ring capacity, every
element type, and every compliant interleaved sequence of `write`/`read`
calls starting from a fresh ring, the total count reported written equals
the total count reported read plus `available()`, and the concatenation of
all elements returned by reads is a prefix of the concatenation of all
elements accepted by writes (FIFO order preserved, including across the
two-chunk wrap-around copies). -/
theorem spsc_stream_preservation (T : Type) (capacity : Nat) (d : T)
    (ops : List (RingOp T)) :
    (runOps (initTrace T capacity d) ops).totalWritten =
      (runOps (initTrace T capacity d) ops).totalRead +
      (runOps (initTrace T capacity d) ops).st.available ∧
    ∃ rest, (runOps (initTrace T capacity d) ops).accepted =
      (runOps (initTrace T capacity d) ops).readOut ++ rest := by
  have hinv : TraceInv (runOps (initTrace T capacity d) ops) := by
    apply runOps_inv
    refine ⟨mkRing_wf T capacity d, ?_, rfl, rfl⟩
    show ([] : List T) = [] ++ (mkRing T capacity d).contents
    rw [mkRing_contents]
    rfl
  obtain ⟨hwf, hacc, htw, htr⟩ := hinv
  constructor
  · rw [htw, htr, hacc, List.length_append,
        (runOps (initTrace T capacity d) ops).st.contents_length hwf]
  · exact ⟨_, hacc⟩

end AES67

namespace AES67

/-! ## L16/L24 codecs (src/NetworkEngine/RTP/SimpleRTP.cpp:196-258)

Samples are embedded as rationals; the `float` arithmetic of the source is
idealized as exact rational arithmetic.  `static_cast<int16_t>` /
`static_cast<int32_t>` of a floating value is truncation toward zero;
byte extraction `(pcm >> k) & 0xFF` on the two's-complement pattern becomes
arithmetic on `pcm mod 2^w`. -/

/-- C truncation toward zero of a real value to an integer
(`static_cast<intN_t>`). -/
def truncToInt (q : ℚ) : ℤ := if 0 ≤ q then ⌊q⌋ else -⌊-q⌋

/-- `std::max(-1.0f, std::min(1.0f, sample))`. -/
def clampSample (x : ℚ) : ℚ := max (-1) (min 1 x)

namespace L16Codec

/-- One sample of `L16Codec::encode` (SimpleRTP.cpp:196-208) before byte
splitting: clamp, scale by 32767, truncate to a signed 16-bit integer. -/
def encodeSample (x : ℚ) : ℤ := truncToInt (clampSample x * 32767)

/-- The emitted big-endian byte pair `((pcm >> 8) & 0xFF, pcm & 0xFF)`:
the two bytes of the 16-bit two's-complement pattern of `pcm`. -/
def encodeBytes (x : ℚ) : Nat × Nat :=
  let p := (encodeSample x % 65536).toNat
  (p / 256, p % 256)

/-- Reassembly `int16_t pcm = (input[0] << 8) | input[1]` (SimpleRTP.cpp:215):
the `int` value reduced mod 2^16 and reinterpreted as a signed 16-bit
two's-complement integer. -/
def toInt16 (v : Nat) : ℤ :=
  if v % 65536 < 32768 then ((v % 65536 : Nat) : ℤ) else ((v % 65536 : Nat) : ℤ) - 65536

/-- One sample of `L16Codec::decode` (SimpleRTP.cpp:210-220):
`samples[i] = pcm / 32768.0f`. -/
def decodeSample (b0 b1 : Nat) : ℚ := ((toInt16 (b0 * 256 + b1) : ℤ) : ℚ) / 32768

/-- decode ∘ encode on one sample. -/
def roundTrip (x : ℚ) : ℚ := decodeSample (encodeBytes x).1 (encodeBytes x).2

end L16Codec

namespace L24Codec

/-- One sample of `L24Codec::encode` (SimpleRTP.cpp:226-239) before byte
splitting: clamp, scale by 8388607 (2^23 - 1), truncate to `int32_t`. -/
def encodeSample (x : ℚ) : ℤ := truncToInt (clampSample x * 8388607)

/-- The emitted big-endian byte triple
`((pcm >> 16) & 0xFF, (pcm >> 8) & 0xFF, pcm & 0xFF)`. -/
def encodeBytes (x : ℚ) : Nat × Nat × Nat :=
  let p := (encodeSample x % 16777216).toNat
  (p / 65536, p / 256 % 256, p % 256)

/-- Reassembly with sign extension (SimpleRTP.cpp:246-253): the 24-bit
pattern `(b0 << 16) | (b1 << 8) | b2`, with bit 23 extended
(`pcm |= 0xFF000000`). -/
def toInt24 (v : Nat) : ℤ :=
  if v % 16777216 < 8388608 then ((v % 16777216 : Nat) : ℤ)
  else ((v % 16777216 : Nat) : ℤ) - 16777216

/-- One sample of `L24Codec::decode` (SimpleRTP.cpp:241-258):
`samples[i] = pcm / 8388608.0f`. -/
def decodeSample (b0 b1 b2 : Nat) : ℚ :=
  ((toInt24 (b0 * 65536 + b1 * 256 + b2) : ℤ) : ℚ) / 8388608

/-- decode ∘ encode on one sample. -/
def roundTrip (x : ℚ) : ℚ :=
  decodeSample (encodeBytes x).1 (encodeBytes x).2.1 (encodeBytes x).2.2

end L24Codec

theorem truncToInt_dist (q : ℚ) : |((truncToInt q : ℤ) : ℚ) - q| < 1 := by
  unfold truncToInt
  rw [abs_lt]
  split_ifs with h
  · have h1 := Int.floor_le q
    have h2 := Int.lt_floor_add_one q
    constructor <;> linarith
  · have h1 := Int.floor_le (-q)
    have h2 := Int.lt_floor_add_one (-q)
    constructor <;> push_cast <;> linarith

theorem truncToInt_abs_le (q : ℚ) : |((truncToInt q : ℤ) : ℚ)| ≤ |q| := by
  unfold truncToInt
  split_ifs with h
  · rw [abs_of_nonneg h, abs_of_nonneg (by exact_mod_cast Int.floor_nonneg.2 h)]
    exact_mod_cast Int.floor_le q
  · push_neg at h
    have h1 : (0 : ℤ) ≤ ⌊-q⌋ := Int.floor_nonneg.2 (by linarith)
    have h2 : ((⌊-q⌋ : ℤ) : ℚ) ≤ -q := Int.floor_le (-q)
    rw [abs_of_neg h]
    calc |((-⌊-q⌋ : ℤ) : ℚ)| = ((⌊-q⌋ : ℤ) : ℚ) := by
            push_cast
            rw [abs_neg, abs_of_nonneg (by exact_mod_cast h1)]
      _ ≤ -q := h2

end AES67

namespace AES67

theorem clampSample_bounds (x : ℚ) : -1 ≤ clampSample x ∧ clampSample x ≤ 1 := by
  unfold clampSample
  exact ⟨le_max_left _ _, max_le (by norm_num) (min_le_left _ _)⟩

theorem clampSample_id (x : ℚ) (hx1 : -1 ≤ x) (hx2 : x ≤ 1) : clampSample x = x := by
  unfold clampSample
  rw [min_eq_right hx2, max_eq_right hx1]

/-- The scaled, clamped sample fits the signed 16-bit range. -/
theorem encodeSample16_bounds (x : ℚ) :
    -32767 ≤ L16Codec.encodeSample x ∧ L16Codec.encodeSample x ≤ 32767 := by
  have h := truncToInt_abs_le (clampSample x * 32767)
  have hc := clampSample_bounds x
  have habs : |clampSample x * 32767| ≤ 32767 := by
    rw [abs_mul, abs_of_pos (by norm_num : (0:ℚ) < 32767)]
    nlinarith [abs_le.2 ⟨hc.1, hc.2⟩]
  have h2 : |((L16Codec.encodeSample x : ℤ) : ℚ)| ≤ 32767 := le_trans h habs
  rw [abs_le] at h2
  constructor
  · exact_mod_cast h2.1
  · exact_mod_cast h2.2

/-- The scaled, clamped sample fits the signed 24-bit range. -/
theorem encodeSample24_bounds (x : ℚ) :
    -8388607 ≤ L24Codec.encodeSample x ∧ L24Codec.encodeSample x ≤ 8388607 := by
  have h := truncToInt_abs_le (clampSample x * 8388607)
  have hc := clampSample_bounds x
  have habs : |clampSample x * 8388607| ≤ 8388607 := by
    rw [abs_mul, abs_of_pos (by norm_num : (0:ℚ) < 8388607)]
    nlinarith [abs_le.2 ⟨hc.1, hc.2⟩]
  have h2 : |((L24Codec.encodeSample x : ℤ) : ℚ)| ≤ 8388607 := le_trans h habs
  rw [abs_le] at h2
  constructor
  · exact_mod_cast h2.1
  · exact_mod_cast h2.2

/-- Byte splitting and reassembly are inverse on the int16 range. -/
theorem toInt16_bytes (p : ℤ) (h1 : -32768 ≤ p) (h2 : p ≤ 32767) :
    L16Codec.toInt16 ((p % 65536).toNat / 256 * 256 + (p % 65536).toNat % 256) = p := by
  unfold L16Codec.toInt16
  split_ifs <;> omega

/-- Byte splitting and reassembly are inverse on the int24 range. -/
theorem toInt24_bytes (p : ℤ) (h1 : -8388608 ≤ p) (h2 : p ≤ 8388607) :
    L24Codec.toInt24 ((p % 16777216).toNat / 65536 * 65536 +
      (p % 16777216).toNat / 256 % 256 * 256 + (p % 16777216).toNat % 256) = p := by
  unfold L24Codec.toInt24
  split_ifs <;> omega

theorem L16Codec.roundTrip16_eq (x : ℚ) :
    L16Codec.roundTrip x = ((L16Codec.encodeSample x : ℤ) : ℚ) / 32768 := by
  obtain ⟨h1, h2⟩ := encodeSample16_bounds x
  unfold L16Codec.roundTrip L16Codec.decodeSample L16Codec.encodeBytes
  dsimp only
  rw [toInt16_bytes (L16Codec.encodeSample x) (by omega) h2]

theorem L24Codec.roundTrip24_eq (x : ℚ) :
    L24Codec.roundTrip x = ((L24Codec.encodeSample x : ℤ) : ℚ) / 8388608 := by
  obtain ⟨h1, h2⟩ := encodeSample24_bounds x
  unfold L24Codec.roundTrip L24Codec.decodeSample L24Codec.encodeBytes
  dsimp only
  rw [toInt24_bytes (L24Codec.encodeSample x) (by omega) h2]

theorem toInt16_range (v : Nat) :
    -32768 ≤ L16Codec.toInt16 v ∧ L16Codec.toInt16 v ≤ 32767 := by
  unfold L16Codec.toInt16
  split_ifs <;> omega

theorem toInt24_range (v : Nat) :
    -8388608 ≤ L24Codec.toInt24 v ∧ L24Codec.toInt24 v ≤ 8388607 := by
  unfold L24Codec.toInt24
  split_ifs <;> omega

/-- C5 counterexample: at `x = 65535/65536` (i.e. `1 - 2^-16`, inside
`[-1, 1]`), the L16 round-trip error is `3/65536 = 3·2^-16 > 2^-15`: the
truncating cast (not round-to-nearest) combined with the 32767/32768
scale asymmetry exceeds the claimed one-LSB bound.  (The float computation
performs the same truncation: the product `65535/65536 · 32767 ≈ 32766.5`
rounds to a float strictly between 32766 and 32767, so the cast also yields
32766.) -/
theorem l16_roundTrip_error_exceeds_claimed_bound :
    (-1 ≤ (65535/65536 : ℚ) ∧ (65535/65536 : ℚ) ≤ 1) ∧
    ¬ |L16Codec.roundTrip (65535/65536) - 65535/65536| ≤ 1/32768 := by
  constructor
  · constructor <;> norm_num
  · have henc : L16Codec.encodeSample (65535/65536) = 32766 := by
      unfold L16Codec.encodeSample truncToInt
      rw [clampSample_id _ (by norm_num) (by norm_num), if_pos (by norm_num),
          Int.floor_eq_iff]
      constructor <;> norm_num
    rw [L16Codec.roundTrip16_eq, henc]
    have he : ((32766 : ℤ) : ℚ) / 32768 - 65535/65536 = -(3/65536) := by norm_num
    rw [he, abs_neg, abs_of_pos (by norm_num)]
    norm_num

/-- C5 (amended): with the truncating casts of the source, the L16
round-trip error is at most `2^-14` and the L24 round-trip error at most
`2^-22` (twice the claimed bounds), for every sample in `[-1, 1]`; and every
decoded value (from arbitrary payload bytes) lies exactly in `[-1.0, 1.0)`. -/
theorem codec_roundTrip_bounds (x : ℚ) (hx1 : -1 ≤ x) (hx2 : x ≤ 1) :
    |L16Codec.roundTrip x - x| ≤ 1/16384 ∧
    |L24Codec.roundTrip x - x| ≤ 1/4194304 ∧
    (∀ b0 b1 : Nat, -1 ≤ L16Codec.decodeSample b0 b1 ∧ L16Codec.decodeSample b0 b1 < 1) ∧
    (∀ b0 b1 b2 : Nat,
      -1 ≤ L24Codec.decodeSample b0 b1 b2 ∧ L24Codec.decodeSample b0 b1 b2 < 1) := by
  have hxabs : |x| ≤ 1 := abs_le.2 ⟨hx1, hx2⟩
  refine ⟨?_, ?_, ?_, ?_⟩
  · have hdist := truncToInt_dist (clampSample x * 32767)
    rw [clampSample_id x hx1 hx2] at hdist
    have henc : ((L16Codec.encodeSample x : ℤ) : ℚ) =
        ((truncToInt (x * 32767) : ℤ) : ℚ) := by
      unfold L16Codec.encodeSample
      rw [clampSample_id x hx1 hx2]
    rw [L16Codec.roundTrip16_eq, henc]
    set p : ℚ := ((truncToInt (x * 32767) : ℤ) : ℚ) with hp
    have h3 : |p - x * 32768| ≤ 2 := by
      have he : p - x * 32768 = (p - x * 32767) + (-x) := by ring
      rw [he]
      calc |(p - x * 32767) + (-x)| ≤ |p - x * 32767| + |(-x)| := abs_add _ _
        _ ≤ 1 + 1 := add_le_add (le_of_lt hdist) (by rw [abs_neg]; exact hxabs)
        _ = 2 := by norm_num
    have he2 : p / 32768 - x = (p - x * 32768) / 32768 := by ring
    rw [he2, abs_div, abs_of_pos (by norm_num : (0:ℚ) < 32768)]
    calc |p - x * 32768| / 32768 ≤ 2 / 32768 :=
          (div_le_div_right (by norm_num : (0:ℚ) < 32768)).2 h3
      _ = 1/16384 := by norm_num
  · have hdist := truncToInt_dist (clampSample x * 8388607)
    rw [clampSample_id x hx1 hx2] at hdist
    have henc : ((L24Codec.encodeSample x : ℤ) : ℚ) =
        ((truncToInt (x * 8388607) : ℤ) : ℚ) := by
      unfold L24Codec.encodeSample
      rw [clampSample_id x hx1 hx2]
    rw [L24Codec.roundTrip24_eq, henc]
    set p : ℚ := ((truncToInt (x * 8388607) : ℤ) : ℚ) with hp
    have h3 : |p - x * 8388608| ≤ 2 := by
      have he : p - x * 8388608 = (p - x * 8388607) + (-x) := by ring
      rw [he]
      calc |(p - x * 8388607) + (-x)| ≤ |p - x * 8388607| + |(-x)| := abs_add _ _
        _ ≤ 1 + 1 := add_le_add (le_of_lt hdist) (by rw [abs_neg]; exact hxabs)
        _ = 2 := by norm_num
    have he2 : p / 8388608 - x = (p - x * 8388608) / 8388608 := by ring
    rw [he2, abs_div, abs_of_pos (by norm_num : (0:ℚ) < 8388608)]
    calc |p - x * 8388608| / 8388608 ≤ 2 / 8388608 :=
          (div_le_div_right (by norm_num : (0:ℚ) < 8388608)).2 h3
      _ = 1/4194304 := by norm_num
  · intro b0 b1
    unfold L16Codec.decodeSample
    obtain ⟨hl, hh⟩ := toInt16_range (b0 * 256 + b1)
    constructor
    · rw [le_div_iff (by norm_num : (0:ℚ) < 32768)]
      calc (-1 : ℚ) * 32768 = ((-32768 : ℤ) : ℚ) := by norm_num
        _ ≤ _ := by exact_mod_cast hl
    · rw [div_lt_one (by norm_num : (0:ℚ) < 32768)]
      exact_mod_cast (by omega : L16Codec.toInt16 (b0 * 256 + b1) < 32768)
  · intro b0 b1 b2
    unfold L24Codec.decodeSample
    obtain ⟨hl, hh⟩ := toInt24_range (b0 * 65536 + b1 * 256 + b2)
    constructor
    · rw [le_div_iff (by norm_num : (0:ℚ) < 8388608)]
      calc (-1 : ℚ) * 8388608 = ((-8388608 : ℤ) : ℚ) := by norm_num
        _ ≤ _ := by exact_mod_cast hl
    · rw [div_lt_one (by norm_num : (0:ℚ) < 8388608)]
      exact_mod_cast (by omega : L24Codec.toInt24 (b0 * 65536 + b1 * 256 + b2) < 8388608)

/-- Witness for the amended C5 theorem at `x = 1/2`. -/
theorem codec_roundTrip_bounds_witness :
    |L16Codec.roundTrip (1/2) - 1/2| ≤ 1/16384 ∧
    |L24Codec.roundTrip (1/2) - 1/2| ≤ 1/4194304 ∧
    (∀ b0 b1 : Nat, -1 ≤ L16Codec.decodeSample b0 b1 ∧ L16Codec.decodeSample b0 b1 < 1) ∧
    (∀ b0 b1 b2 : Nat,
      -1 ≤ L24Codec.decodeSample b0 b1 b2 ∧ L24Codec.decodeSample b0 b1 b2 < 1) :=
  codec_roundTrip_bounds (1/2) (by norm_num) (by norm_num)

/-! ## Receiver sequence/loss accounting
(src/NetworkEngine/RTP/RTPReceiver.cpp:390-408)

The statistics counters are `uint64_t` (reduced mod `2^64` at each
increment); `lastSequenceNumber_` and the packet sequence number are
`uint16_t` values, so the gap `sequenceNumber - expected` wraps mod
`2^16`. -/

structure RxStats where
  packetsReceived : Nat
  packetsLost : Nat
  bytesReceived : Nat
  lastSequenceNumber : Nat
deriving DecidableEq, Repr

/-- The zeroed statistics state (constructor / `resetStatistics`). -/
def initRxStats : RxStats := ⟨0, 0, 0, 0⟩

/-- `RTPReceiver::updateStats(sequenceNumber, payloadSize)`:
on a non-first packet, if the sequence number differs from
`lastSequenceNumber_ + 1` (as uint16), add the uint16 wrap-around gap to
`packetsLost`; then record the sequence number and bump the counters. -/
def updateStats (st : RxStats) (seq : Nat) (payloadSize : Nat) : RxStats :=
  let st1 :=
    if 0 < st.packetsReceived then
      let expected := (st.lastSequenceNumber + 1) % 65536
      if seq ≠ expected then
        { st with packetsLost :=
            (st.packetsLost + (seq + 65536 - expected) % 65536) % 2^64 }
      else st
    else st
  { st1 with lastSequenceNumber := seq,
             packetsReceived := (st1.packetsReceived + 1) % 2^64,
             bytesReceived := (st1.bytesReceived + payloadSize) % 2^64 }

/-- Processing a list of accepted packets `(sequence number, payload size)`. -/
def runPackets (st : RxStats) (pkts : List (Nat × Nat)) : RxStats :=
  pkts.foldl (fun s pkt => updateStats s pkt.1 pkt.2) st

/-- A run of strictly consecutive uint16 sequence numbers starting at `s`
(wrapping mod 2^16) leaves `packetsLost` untouched and advances the
recorded last sequence number. -/
theorem runPackets_consecutive (pkts : List (Nat × Nat)) (s : Nat) (st : RxStats)
    (hfst : pkts.map Prod.fst = (List.range pkts.length).map (fun i => (s + i) % 65536))
    (hlast : st.lastSequenceNumber = (s + 65535) % 65536)
    (hr : 0 < st.packetsReceived)
    (hb : st.packetsReceived + pkts.length < 2^64) :
    (runPackets st pkts).packetsLost = st.packetsLost ∧
    (runPackets st pkts).lastSequenceNumber = (s + pkts.length + 65535) % 65536 ∧
    (runPackets st pkts).packetsReceived = st.packetsReceived + pkts.length := by
  induction pkts generalizing s st with
  | nil =>
    refine ⟨rfl, ?_, rfl⟩
    simpa [runPackets] using hlast
  | cons pkt rest ih =>
    obtain ⟨q, p⟩ := pkt
    simp only [List.length_cons] at hb
    simp only [List.map_cons, List.length_cons, List.range_succ_eq_map,
      List.map_map] at hfst
    injection hfst with hq hrest
    have hq' : q = s % 65536 := by simpa using hq
    have hexp : q = (st.lastSequenceNumber + 1) % 65536 := by
      rw [hlast, hq']
      omega
    have hstep : updateStats st q p =
        { st with lastSequenceNumber := q,
                  packetsReceived := (st.packetsReceived + 1) % 2^64,
                  bytesReceived := (st.bytesReceived + p) % 2^64 } := by
      unfold updateStats
      rw [if_pos hr, if_neg (by simp [hexp])]
    have hrecv : (st.packetsReceived + 1) % 2^64 = st.packetsReceived + 1 :=
      Nat.mod_eq_of_lt (by omega)
    have hrest' : rest.map Prod.fst =
        (List.range rest.length).map (fun i => (s + 1 + i) % 65536) := by
      rw [hrest]
      apply List.map_congr_left
      intro i _
      simp only [Function.comp_apply]
      congr 1
      omega
    have hrun : runPackets st ((q, p) :: rest) = runPackets (updateStats st q p) rest := rfl
    rw [hrun, hstep]
    obtain ⟨ih1, ih2, ih3⟩ := ih (s + 1)
      { st with lastSequenceNumber := q,
                packetsReceived := (st.packetsReceived + 1) % 2^64,
                bytesReceived := (st.bytesReceived + p) % 2^64 }
      hrest'
      (by show q = (s + 1 + 65535) % 65536; rw [hq']; omega)
      (by show 0 < (st.packetsReceived + 1) % 2^64; rw [hrecv]; omega)
      (by show (st.packetsReceived + 1) % 2^64 + rest.length < 2^64; rw [hrecv]; omega)
    refine ⟨ih1, ?_, ?_⟩
    · rw [ih2]
      congr 1
      simp only [List.length_cons]
      omega
    · rw [ih3, hrecv]
      simp only [List.length_cons]
      omega

/-- C7: receiver packet-loss accounting.  From a reset state the first
packet adds no loss; a subsequent packet with sequence number `seq` adds
`(seq - (previous seq + 1)) mod 2^16` to `packetsLost`; a strictly
consecutive run (including the 65535 → 0 wrap) yields `packetsLost = 0`;
and a run with a single forward gap of `g` missing packets yields
`packetsLost = g`. -/
theorem rx_packet_loss_accounting :
    (∀ seq payload : Nat, (updateStats initRxStats seq payload).packetsLost = 0) ∧
    (∀ (st : RxStats) (seq payload : Nat), 0 < st.packetsReceived → seq < 65536 →
      st.lastSequenceNumber < 65536 →
      st.packetsLost + (seq + 65536 - (st.lastSequenceNumber + 1) % 65536) % 65536 < 2^64 →
      ((updateStats st seq payload).packetsLost : ℤ) =
        (st.packetsLost : ℤ) + ((seq : ℤ) - ((st.lastSequenceNumber : ℤ) + 1)) % 65536) ∧
    (∀ (s0 : Nat) (pkts : List (Nat × Nat)),
      pkts.map Prod.fst = (List.range pkts.length).map (fun i => (s0 + i) % 65536) →
      pkts.length < 2^64 →
      (runPackets initRxStats pkts).packetsLost = 0) ∧
    (∀ (s0 g : Nat) (pkts1 pkts2 : List (Nat × Nat)),
      pkts1.map Prod.fst = (List.range pkts1.length).map (fun i => (s0 + i) % 65536) →
      pkts2.map Prod.fst =
        (List.range pkts2.length).map (fun i => (s0 + pkts1.length + g + i) % 65536) →
      0 < pkts1.length → 0 < pkts2.length → 1 ≤ g → g ≤ 65535 →
      pkts1.length + pkts2.length < 2^64 →
      (runPackets initRxStats (pkts1 ++ pkts2)).packetsLost = g) := by
  have hfirst : ∀ (seq payload : Nat), updateStats initRxStats seq payload =
      ⟨1, 0, payload % 2^64, seq⟩ := by
    intro seq payload
    unfold updateStats initRxStats
    norm_num
  refine ⟨?_, ?_, ?_, ?_⟩
  · intro seq payload
    rw [hfirst]
  · intro st seq payload hrecv hseq hlast hbound
    unfold updateStats
    rw [if_pos hrecv]
    by_cases heq : seq = (st.lastSequenceNumber + 1) % 65536
    · rw [if_neg (by simpa using heq)]
      dsimp only
      have hz : ((seq : ℤ) - ((st.lastSequenceNumber : ℤ) + 1)) % 65536 = 0 := by
        omega
      rw [hz]
      omega
    · rw [if_pos (by simpa using heq)]
      dsimp only
      have hmod : (st.packetsLost +
          (seq + 65536 - (st.lastSequenceNumber + 1) % 65536) % 65536) % 2^64 =
          st.packetsLost + (seq + 65536 - (st.lastSequenceNumber + 1) % 65536) % 65536 :=
        Nat.mod_eq_of_lt hbound
      rw [hmod]
      omega
  · intro s0 pkts hfst hlen
    cases pkts with
    | nil => rfl
    | cons pkt rest =>
      obtain ⟨q, p⟩ := pkt
      simp only [List.map_cons, List.length_cons, List.range_succ_eq_map,
        List.map_map] at hfst
      injection hfst with hq hrest
      have hq' : q = s0 % 65536 := by simpa using hq
      have hrun : runPackets initRxStats ((q, p) :: rest) =
          runPackets (updateStats initRxStats q p) rest := rfl
      rw [hrun, hfirst]
      have hrest' : rest.map Prod.fst =
          (List.range rest.length).map (fun i => (s0 + 1 + i) % 65536) := by
        rw [hrest]
        apply List.map_congr_left
        intro i _
        simp only [Function.comp_apply]
        congr 1
        omega
      obtain ⟨h1, h2, h3⟩ := runPackets_consecutive rest (s0 + 1) ⟨1, 0, p % 2^64, q⟩
        hrest' (by show q = (s0 + 1 + 65535) % 65536; rw [hq']; omega)
        (by norm_num)
        (by show 1 + rest.length < 2^64; simp only [List.length_cons] at hlen; omega)
      exact h1
  · intro s0 g pkts1 pkts2 hfst1 hfst2 hlen1 hlen2 hg1 hg2 hlen
    rw [show runPackets initRxStats (pkts1 ++ pkts2) =
        runPackets (runPackets initRxStats pkts1) pkts2 from List.foldl_append ..]
    -- stage 1: the consecutive prefix
    cases pkts1 with
    | nil => simp at hlen1
    | cons pkt rest =>
      obtain ⟨q, p⟩ := pkt
      simp only [List.map_cons, List.length_cons, List.range_succ_eq_map,
        List.map_map] at hfst1
      injection hfst1 with hq hrest
      have hq' : q = s0 % 65536 := by simpa using hq
      have hrun : runPackets initRxStats ((q, p) :: rest) =
          runPackets (updateStats initRxStats q p) rest := rfl
      rw [hrun, hfirst]
      have hrest' : rest.map Prod.fst =
          (List.range rest.length).map (fun i => (s0 + 1 + i) % 65536) := by
        rw [hrest]
        apply List.map_congr_left
        intro i _
        simp only [Function.comp_apply]
        congr 1
        omega
      simp only [List.length_cons] at hlen hfst2
      obtain ⟨h1, h2, h3⟩ := runPackets_consecutive rest (s0 + 1) ⟨1, 0, p % 2^64, q⟩
        hrest' (by show q = (s0 + 1 + 65535) % 65536; rw [hq']; omega)
        (by norm_num)
        (by show 1 + rest.length < 2^64; omega)
      set st1 := runPackets ⟨1, 0, p % 2^64, q⟩ rest with hst1
      dsimp only at h1 h2 h3
      -- stage 2: the gapped packet, then another consecutive run
      cases pkts2 with
      | nil => simp at hlen2
      | cons pkt2 rest2 =>
        obtain ⟨q2, p2⟩ := pkt2
        simp only [List.length_cons] at hlen
        simp only [List.map_cons, List.length_cons, List.range_succ_eq_map,
          List.map_map] at hfst2
        injection hfst2 with hq2 hrest2
        have hq2' : q2 = (s0 + (rest.length + 1) + g) % 65536 := by simpa using hq2
        have hrun2 : runPackets st1 ((q2, p2) :: rest2) =
            runPackets (updateStats st1 q2 p2) rest2 := rfl
        rw [hrun2]
        have hexp : (st1.lastSequenceNumber + 1) % 65536 =
            (s0 + rest.length + 1) % 65536 := by
          rw [h2]
          omega
        have hne : q2 ≠ (st1.lastSequenceNumber + 1) % 65536 := by
          rw [hexp, hq2']
          omega
        have hgap : (q2 + 65536 - (st1.lastSequenceNumber + 1) % 65536) % 65536 = g := by
          rw [hexp, hq2']
          omega
        have hstep : updateStats st1 q2 p2 =
            { st1 with lastSequenceNumber := q2,
                       packetsReceived := (st1.packetsReceived + 1) % 2^64,
                       bytesReceived := (st1.bytesReceived + p2) % 2^64,
                       packetsLost := (st1.packetsLost + g) % 2^64 } := by
          unfold updateStats
          rw [if_pos (by rw [h3]; omega), if_pos (by simpa using hne), hgap]
        rw [hstep]
        have hlost : ((0 : Nat) + g) % 2^64 = g := by omega
        have hrest2' : rest2.map Prod.fst =
            (List.range rest2.length).map
              (fun i => (s0 + (rest.length + 1) + g + 1 + i) % 65536) := by
          rw [hrest2]
          apply List.map_congr_left
          intro i _
          simp only [Function.comp_apply]
          congr 1
          omega
        obtain ⟨g1, g2, g3⟩ := runPackets_consecutive rest2 (s0 + (rest.length + 1) + g + 1)
          { st1 with lastSequenceNumber := q2,
                     packetsReceived := (st1.packetsReceived + 1) % 2^64,
                     bytesReceived := (st1.bytesReceived + p2) % 2^64,
                     packetsLost := (st1.packetsLost + g) % 2^64 }
          hrest2'
          (by show q2 = (s0 + (rest.length + 1) + g + 1 + 65535) % 65536; rw [hq2']; omega)
          (by show 0 < (st1.packetsReceived + 1) % 2^64; rw [h3]; omega)
          (by show (st1.packetsReceived + 1) % 2^64 + rest2.length < 2^64; rw [h3]; omega)
        rw [g1]
        show (st1.packetsLost + g) % 2^64 = g
        rw [h1]
        omega

/-- Witness for C7 at a concrete run: packets 10, 11 then 17 (a gap of 5 missing
packets) from the reset state record `packetsLost = 5`. -/
theorem rx_packet_loss_accounting_witness :
    (runPackets initRxStats ([(10, 100), (11, 100)] ++ [(17, 100)])).packetsLost = 5 :=
  rx_packet_loss_accounting.2.2.2 10 5 [(10, 100), (11, 100)] [(17, 100)]
    (by decide) (by decide) (by decide) (by decide) (by decide) (by decide) (by decide)

/-! ## RT Bridge input path (src/Driver/AES67IOHandler.cpp:96-143)

`processInput` batch-reads each of the 128 input rings into a 512-frame
stack scratch, zero-fills a short read's tail, de-interleaves the scratch
into `outputData[frame * channelCount + ch]`, and bumps the input-underrun
counter at most once per callback.  The interleaved host buffer is embedded
as a function `Nat → T`; one channel's writes are described by their index
set `idx % channelCount = ch ∧ idx / channelCount < frameCount`, which for
`ch < channelCount` is exactly `{frame * channelCount + ch | frame <
frameCount}`. -/

/-- `kMaxFramesPerBuffer` (AES67IOHandler.cpp:107). -/
def kMaxFramesPerBuffer : Nat := 512

/-- The body of the per-channel loop of `processInput`
(AES67IOHandler.cpp:120-142): batch-read, zero-fill, de-interleave, record
whether this channel underran. -/
def inputStep [Zero T] (frameCount channelCount : Nat)
    (acc : (Nat → T) × (Nat → RingState T) × Bool) (ch : Nat) :
    (Nat → T) × (Nat → RingState T) × Bool :=
  let res := (acc.2.1 ch).read frameCount
  let scratch := res.2.1 ++ List.replicate (frameCount - res.1) 0
  (fun idx => if idx % channelCount = ch ∧ idx / channelCount < frameCount
              then scratch.getD (idx / channelCount) 0 else acc.1 idx,
   fun c => if c = ch then res.2.2 else acc.2.1 c,
   acc.2.2 || decide (res.1 < frameCount))

/-- `AES67IOHandler::processInput(outputData, frameCount, channelCount)`:
returns the interleaved output, the updated rings, and the number of times
the input-underrun counter was incremented during the call. -/
def processInput [Zero T] (bufs : Nat → RingState T) (out0 : Nat → T)
    (frameCount channelCount : Nat) :
    (Nat → T) × (Nat → RingState T) × Nat :=
  if frameCount > kMaxFramesPerBuffer then
    (fun idx => if idx < frameCount * channelCount then 0 else out0 idx, bufs, 0)
  else
    let res := (List.range channelCount).foldl (inputStep frameCount channelCount)
      (out0, bufs, false)
    (res.1, res.2.1, if res.2.2 then 1 else 0)

/-- The channel loop of `processInput` over the first `k` channels. -/
def inputFold [Zero T] (frameCount channelCount : Nat) (bufs : Nat → RingState T)
    (out0 : Nat → T) (k : Nat) : (Nat → T) × (Nat → RingState T) × Bool :=
  (List.range k).foldl (inputStep frameCount channelCount) (out0, bufs, false)

theorem inputFold_succ [Zero T] (frameCount channelCount : Nat)
    (bufs : Nat → RingState T) (out0 : Nat → T) (k : Nat) :
    inputFold frameCount channelCount bufs out0 (k + 1) =
      inputStep frameCount channelCount
        (inputFold frameCount channelCount bufs out0 k) k := by
  unfold inputFold
  rw [List.range_succ, List.foldl_append, List.foldl_cons, List.foldl_nil]

theorem inputStep_out [Zero T] (fc cc : Nat) (acc : (Nat → T) × (Nat → RingState T) × Bool)
    (ch idx : Nat) :
    (inputStep fc cc acc ch).1 idx =
      if idx % cc = ch ∧ idx / cc < fc
      then (((acc.2.1 ch).read fc).2.1 ++
        List.replicate (fc - ((acc.2.1 ch).read fc).1) 0).getD (idx / cc) 0
      else acc.1 idx := rfl

theorem getD_replicate_self (n i : Nat) (a : T) : (List.replicate n a).getD i a = a := by
  rcases lt_or_ge i n with h | h
  · rw [List.getD_eq_getElem _ _ (by simpa using h)]
    simp
  · rw [List.getD_eq_default _ _ (by simpa using h)]

/-- Invariant of the channel loop after the first `k` channels: each
processed ring has been read once, the underrun flag is set exactly when
some processed channel was short, and every processed channel's tail
beyond its read count is zero in the interleaved output. -/
theorem inputFold_inv [Zero T] (frameCount channelCount : Nat)
    (bufs : Nat → RingState T) (out0 : Nat → T)
    (hwf : ∀ ch, (bufs ch).WF) (k : Nat) (hk : k ≤ channelCount) :
    (∀ c, (inputFold frameCount channelCount bufs out0 k).2.1 c =
      if c < k then ((bufs c).read frameCount).2.2 else bufs c) ∧
    ((inputFold frameCount channelCount bufs out0 k).2.2 = true ↔
      ∃ ch, ch < k ∧ (bufs ch).available < frameCount) ∧
    (∀ ch, ch < k → ∀ frame, min frameCount (bufs ch).available ≤ frame →
      frame < frameCount →
      (inputFold frameCount channelCount bufs out0 k).1 (frame * channelCount + ch) = 0) := by
  induction k with
  | zero =>
    refine ⟨fun c => by simp [inputFold], by simp [inputFold], ?_⟩
    intro ch h
    exact absurd h (by omega)
  | succ k ih =>
    obtain ⟨ih1, ih2, ih3⟩ := ih (by omega)
    have hkc : k < channelCount := by omega
    have hcc0 : 0 < channelCount := by omega
    rw [inputFold_succ]
    set acc := inputFold frameCount channelCount bufs out0 k with hacc
    have hbufk : acc.2.1 k = bufs k := by
      rw [ih1]
      simp
    obtain ⟨r1, r2, r3, r4⟩ := (bufs k).read_spec frameCount (hwf k)
    have hvlen : ((bufs k).read frameCount).2.1.length =
        min frameCount (bufs k).available := by
      rw [r3, List.length_take, r1, (bufs k).contents_length (hwf k)]
      omega
    refine ⟨?_, ?_, ?_⟩
    · intro c
      show (if c = k then ((acc.2.1 k).read frameCount).2.2 else acc.2.1 c) = _
      rw [hbufk]
      by_cases hc : c = k
      · subst hc
        rw [if_pos rfl, if_pos (by omega)]
      · rw [if_neg hc, ih1]
        by_cases hck : c < k
        · rw [if_pos hck, if_pos (by omega)]
        · rw [if_neg hck, if_neg (by omega)]
    · show (acc.2.2 || decide (((acc.2.1 k).read frameCount).1 < frameCount)) = true ↔ _
      rw [hbufk, r1]
      cases hb : acc.2.2 with
      | false =>
        simp only [Bool.false_or, decide_eq_true_eq]
        constructor
        · intro h
          exact ⟨k, by omega, by omega⟩
        · rintro ⟨ch, hch, hav⟩
          by_cases hchk : ch < k
          · have hcontr := ih2.2 ⟨ch, hchk, hav⟩
            rw [hb] at hcontr
            exact absurd hcontr (by decide)
          · have hche : ch = k := by omega
            subst hche
            omega
      | true =>
        simp only [Bool.true_or, true_iff]
        obtain ⟨ch, hch, hav⟩ := ih2.1 hb
        exact ⟨ch, by omega, hav⟩
    · intro ch hch frame hmin hframe
      have hchlt : ch < channelCount := by omega
      have hmod : (frame * channelCount + ch) % channelCount = ch := by
        rw [Nat.mul_comm frame channelCount, Nat.mul_add_mod, Nat.mod_eq_of_lt hchlt]
      have hdiv : (frame * channelCount + ch) / channelCount = frame := by
        rw [Nat.add_comm, Nat.add_mul_div_right _ _ hcc0,
            Nat.div_eq_of_lt hchlt]
        omega
      rw [inputStep_out]
      by_cases hck : ch = k
      · subst hck
        rw [if_pos ⟨hmod, by rw [hdiv]; omega⟩, hdiv, hbufk]
        have hfge : ((bufs ch).read frameCount).2.1.length ≤ frame := by
          rw [hvlen]
          omega
        rw [List.getD_append_right _ _ _ _ hfge]
        exact getD_replicate_self _ _ _
      · rw [if_neg (by rw [hmod]; exact fun hcontr => hck hcontr.1)]
        exact ih3 ch (by omega) frame hmin hframe

theorem processInput_eq [Zero T] (bufs : Nat → RingState T) (out0 : Nat → T)
    (frames cc : Nat) (h : ¬ frames > kMaxFramesPerBuffer) :
    processInput bufs out0 frames cc =
      ((inputFold frames cc bufs out0 cc).1,
       (inputFold frames cc bufs out0 cc).2.1,
       if (inputFold frames cc bufs out0 cc).2.2 then 1 else 0) := by
  unfold processInput inputFold
  rw [if_neg h]

/-- C9: RT Bridge input-underrun counting.  For a callback with
`frames ≤ 512` and the full 128 channels, the input-underrun counter is
incremented exactly once if at least one channel's ring read came up short,
and zero times if none did — never once per short channel; and every short
channel's tail beyond its read count is zero-filled in the interleaved host
output. -/
theorem processInput_underrun_accounting [Zero T] (bufs : Nat → RingState T)
    (out0 : Nat → T) (frames : Nat)
    (hf : frames ≤ 512) (hwf : ∀ ch, (bufs ch).WF) :
    ((∃ ch, ch < 128 ∧ (bufs ch).available < frames) →
      (processInput bufs out0 frames 128).2.2 = 1) ∧
    ((∀ ch, ch < 128 → frames ≤ (bufs ch).available) →
      (processInput bufs out0 frames 128).2.2 = 0) ∧
    (∀ ch, ch < 128 → ∀ frame, min frames (bufs ch).available ≤ frame →
      frame < frames →
      (processInput bufs out0 frames 128).1 (frame * 128 + ch) = 0) := by
  have hnot : ¬ frames > kMaxFramesPerBuffer := by
    unfold kMaxFramesPerBuffer
    omega
  obtain ⟨i1, i2, i3⟩ := inputFold_inv frames 128 bufs out0 hwf 128 (le_refl _)
  rw [processInput_eq bufs out0 frames 128 hnot]
  refine ⟨?_, ?_, ?_⟩
  · intro h
    dsimp only
    rw [if_pos (i2.2 h)]
  · intro h
    dsimp only
    rw [if_neg]
    intro hcontr
    obtain ⟨ch, hch, hav⟩ := i2.1 hcontr
    exact absurd (h ch hch) (by omega)
  · exact i3

/-- Witness for C9: with all 128 input rings empty (fresh, capacity 4) and a
2-frame callback, the input-underrun counter is incremented exactly once. -/
theorem processInput_underrun_accounting_witness :
    (processInput (fun _ => mkRing Int 4 0) (fun _ => (0 : Int)) 2 128).2.2 = 1 :=
  (processInput_underrun_accounting (fun _ => mkRing Int 4 0) (fun _ => (0 : Int)) 2
    (by norm_num) (fun _ => mkRing_wf Int 4 0)).1
    ⟨0, by norm_num, by decide⟩

/-! ## RTP transmitter send loop
(src/NetworkEngine/RTP/RTPTransmitter.cpp:131-277)

One iteration of `transmitLoop` while running: pace (not modelled), gather
the mapped output rings via `readDeviceChannels`, and — only if no ring
came up short — encode and send one RTP packet, advancing the sequence
number and timestamp.  `sequenceNumber_` is `uint16_t`, `timestamp_`
`uint32_t`, the statistics counters `uint64_t`.  The socket send is assumed
to succeed (send failures only bump `malformedPackets`). -/

/-- An RTP packet handed to `RTPSocket::send`. -/
structure RTPPacketM where
  version : Nat
  payloadType : Nat
  sequenceNumber : Nat
  timestamp : Nat
  ssrc : Nat
  payload : List Nat
deriving DecidableEq, Repr

structure TxState where
  rings : Nat → RingState ℚ
  sequenceNumber : Nat
  timestamp : Nat
  overruns : Nat
  bytesSent : Nat
  sent : List RTPPacketM

/-- The per-stream-channel loop body of `RTPTransmitter::readDeviceChannels`
(RTPTransmitter.cpp:196-213): batch-read ring `deviceChannelStart + s`,
zero-fill a short read, interleave into `audio[frame * numChannels + s]`,
record whether this channel underran. -/
def txReadStep (start nc spp : Nat)
    (acc : (Nat → ℚ) × (Nat → RingState ℚ) × Bool) (s : Nat) :
    (Nat → ℚ) × (Nat → RingState ℚ) × Bool :=
  let res := (acc.2.1 (start + s)).read spp
  let scratch := res.2.1 ++ List.replicate (spp - res.1) 0
  (fun idx => if idx % nc = s ∧ idx / nc < spp then scratch.getD (idx / nc) 0 else acc.1 idx,
   fun c => if c = start + s then res.2.2 else acc.2.1 c,
   acc.2.2 || decide (res.1 < spp))

def txReadFold (start nc spp : Nat) (rings : Nat → RingState ℚ) (audio0 : Nat → ℚ)
    (k : Nat) : (Nat → ℚ) × (Nat → RingState ℚ) × Bool :=
  (List.range k).foldl (txReadStep start nc spp) (audio0, rings, false)

/-- `RTPTransmitter::readDeviceChannels(interleavedAudio, frameCount)`
(RTPTransmitter.cpp:178-217): validates the mapping window and the 512-frame
ceiling, gathers all stream channels, and returns `!hadUnderrun` together
with the interleaved audio and the consumed rings. -/
def readDeviceChannels (start nc spp : Nat) (rings : Nat → RingState ℚ)
    (audio0 : Nat → ℚ) : Bool × (Nat → ℚ) × (Nat → RingState ℚ) :=
  if start + nc > 128 then (false, audio0, rings)
  else if spp > 512 then (false, audio0, rings)
  else
    let f := txReadFold start nc spp rings audio0 nc
    (!f.2.2, f.1, f.2.1)

/-- `RTPTransmitter::encodeL16` (RTPTransmitter.cpp:219-232) over the
interleaved audio: the same clamp/scale/truncate/big-endian computation as
`L16Codec::encode`, one byte pair per sample. -/
def encodePayloadL16 (audio : Nat → ℚ) (totalSamples : Nat) : List Nat :=
  (List.range totalSamples).bind (fun i =>
    [(L16Codec.encodeBytes (audio i)).1, (L16Codec.encodeBytes (audio i)).2])

/-- `RTPTransmitter::encodeL24` (RTPTransmitter.cpp:234-248). -/
def encodePayloadL24 (audio : Nat → ℚ) (totalSamples : Nat) : List Nat :=
  (List.range totalSamples).bind (fun i =>
    [(L24Codec.encodeBytes (audio i)).1,
     (L24Codec.encodeBytes (audio i)).2.1,
     (L24Codec.encodeBytes (audio i)).2.2])

/-- `RTPTransmitter::sendPacket` (RTPTransmitter.cpp:250-277) followed by
the loop's timestamp/statistics updates (RTPTransmitter.cpp:164-174):
a zero-size payload is not sent (`sendPacket` returns early, no sequence
advance); otherwise one packet goes out and `sequenceNumber_++` wraps as
uint16. -/
def sendAndAdvance (payloadType ssrc : Nat) (payload : List Nat)
    (payloadSize spp : Nat) (st : TxState) : TxState :=
  let st1 :=
    if payloadSize = 0 then st
    else { st with
      sent := st.sent ++ [⟨2, payloadType, st.sequenceNumber, st.timestamp, ssrc, payload⟩],
      sequenceNumber := (st.sequenceNumber + 1) % 65536 }
  { st1 with timestamp := (st1.timestamp + spp) % 2^32,
             bytesSent := (st1.bytesSent + payloadSize) % 2^64 }

/-- One iteration of `RTPTransmitter::transmitLoop` (RTPTransmitter.cpp:137-175)
while running: `samplesPerPacket = sampleRate / 1000`; a failed
`readDeviceChannels` counts one overrun and skips the rest of the iteration
(`continue`); otherwise the payload is encoded per the declared encoding and
sent (an unsupported encoding also skips).  The scratch `audioBuffer_` is
fully overwritten at every index the encoder reads, so it is modelled as
initially zero. -/
def transmitIteration (nc sampleRate : Nat) (encoding : Str)
    (start payloadType ssrc : Nat) (st : TxState) : TxState :=
  let spp := sampleRate / 1000
  let rd := readDeviceChannels start nc spp st.rings (fun _ => 0)
  if rd.1 = false then
    { st with rings := rd.2.2, overruns := (st.overruns + 1) % 2^64 }
  else if encoding = "L16".toList then
    sendAndAdvance payloadType ssrc (encodePayloadL16 rd.2.1 (spp * nc)) (spp * nc * 2) spp
      { st with rings := rd.2.2 }
  else if encoding = "L24".toList then
    sendAndAdvance payloadType ssrc (encodePayloadL24 rd.2.1 (spp * nc)) (spp * nc * 3) spp
      { st with rings := rd.2.2 }
  else
    { st with rings := rd.2.2 }

theorem txReadFold_succ (start nc spp : Nat) (rings : Nat → RingState ℚ)
    (audio0 : Nat → ℚ) (k : Nat) :
    txReadFold start nc spp rings audio0 (k + 1) =
      txReadStep start nc spp (txReadFold start nc spp rings audio0 k) k := by
  unfold txReadFold
  rw [List.range_succ, List.foldl_append, List.foldl_cons, List.foldl_nil]

/-- Flag invariant of the gather loop: the underrun flag after `k` stream
channels is set exactly when one of them had fewer than `spp` samples. -/
theorem txReadFold_inv (start nc spp : Nat) (rings : Nat → RingState ℚ)
    (audio0 : Nat → ℚ) (hwf : ∀ c, (rings c).WF) (k : Nat) :
    (∀ c, (txReadFold start nc spp rings audio0 k).2.1 c =
      if start ≤ c ∧ c < start + k then ((rings c).read spp).2.2 else rings c) ∧
    ((txReadFold start nc spp rings audio0 k).2.2 = true ↔
      ∃ s, s < k ∧ (rings (start + s)).available < spp) := by
  induction k with
  | zero =>
    refine ⟨fun c => ?_, by simp [txReadFold]⟩
    show rings c = if start ≤ c ∧ c < start + 0 then _ else rings c
    rw [if_neg (by omega)]
  | succ k ih =>
    obtain ⟨ih1, ih2⟩ := ih
    rw [txReadFold_succ]
    set acc := txReadFold start nc spp rings audio0 k with hacc
    have hbufk : acc.2.1 (start + k) = rings (start + k) := by
      rw [ih1, if_neg (by omega)]
    obtain ⟨r1, r2, r3, r4⟩ := (rings (start + k)).read_spec spp (hwf (start + k))
    constructor
    · intro c
      show (if c = start + k then ((acc.2.1 (start + k)).read spp).2.2 else acc.2.1 c) = _
      rw [hbufk]
      by_cases hc : c = start + k
      · subst hc
        rw [if_pos rfl, if_pos (by omega)]
      · rw [if_neg hc, ih1]
        by_cases hck : start ≤ c ∧ c < start + k
        · rw [if_pos hck, if_pos (by omega)]
        · rw [if_neg hck, if_neg (by omega)]
    · show (acc.2.2 || decide (((acc.2.1 (start + k)).read spp).1 < spp)) = true ↔ _
      rw [hbufk, r1]
      cases hb : acc.2.2 with
      | false =>
        simp only [Bool.false_or, decide_eq_true_eq]
        constructor
        · intro h
          exact ⟨k, by omega, by omega⟩
        · rintro ⟨s, hs, hav⟩
          by_cases hsk : s < k
          · have hcontr := ih2.2 ⟨s, hsk, hav⟩
            rw [hb] at hcontr
            exact absurd hcontr (by decide)
          · have : s = k := by omega
            subst this
            omega
      | true =>
        simp only [Bool.true_or, true_iff]
        obtain ⟨s, hs, hav⟩ := ih2.1 hb
        exact ⟨s, by omega, hav⟩

theorem readDeviceChannels_eq (start nc spp : Nat) (rings : Nat → RingState ℚ)
    (audio0 : Nat → ℚ) (h1 : ¬ start + nc > 128) (h2 : ¬ spp > 512) :
    readDeviceChannels start nc spp rings audio0 =
      (!(txReadFold start nc spp rings audio0 nc).2.2,
       (txReadFold start nc spp rings audio0 nc).1,
       (txReadFold start nc spp rings audio0 nc).2.1) := by
  unfold readDeviceChannels
  rw [if_neg h1, if_neg h2]

/-- The transmitter state used in the C2 counterexample: all output rings
fresh (empty, capacity 64), counters zero, nothing sent. -/
def txInit : TxState :=
  { rings := fun _ => mkRing ℚ 64 0, sequenceNumber := 0, timestamp := 0,
    overruns := 0, bytesSent := 0, sent := [] }

/-- C2 counterexample: one iteration of the send loop (1 L16 channel at
48 kHz, mapped at device channel 0) with an empty output ring: the batch
read is short (0 of 48 samples available), and the iteration counts one
overrun and sends NO packet — `transmitLoop` hits `continue` and gaps the
wire, contrary to the claim that a silence packet is still sent. -/
theorem transmit_short_read_skips_send :
    (txInit.rings 0).available < 48 ∧
    (transmitIteration 1 48000 "L16".toList 0 96 7 txInit).sent = [] ∧
    (transmitIteration 1 48000 "L16".toList 0 96 7 txInit).overruns = 1 := by
  decide

/-- C2 (amended): in every send-loop iteration (valid mapping window,
`samplesPerPacket ≤ 512`), a short batch-read zero-fills the scratch but
makes `readDeviceChannels` return false, so the iteration increments the
overrun counter once and SKIPS encoding and sending — no packet is emitted
for that interval and neither the sequence number nor the timestamp
advances; only when every channel's read is complete is exactly one RTP
packet (carrying the encoded interleaved payload) emitted, advancing the
sequence number and timestamp. -/
theorem transmitIteration_characterization (nc sr start pt ssrc : Nat) (enc : Str)
    (st : TxState) (hrange : start + nc ≤ 128) (hspp : sr / 1000 ≤ 512)
    (hwf : ∀ c, (st.rings c).WF) :
    ((∃ s, s < nc ∧ (st.rings (start + s)).available < sr / 1000) →
      (transmitIteration nc sr enc start pt ssrc st).sent = st.sent ∧
      (transmitIteration nc sr enc start pt ssrc st).overruns = (st.overruns + 1) % 2^64 ∧
      (transmitIteration nc sr enc start pt ssrc st).sequenceNumber = st.sequenceNumber ∧
      (transmitIteration nc sr enc start pt ssrc st).timestamp = st.timestamp) ∧
    ((∀ s, s < nc → sr / 1000 ≤ (st.rings (start + s)).available) →
      enc = "L16".toList → 0 < sr / 1000 * nc →
      (transmitIteration nc sr enc start pt ssrc st).sent =
        st.sent ++ [⟨2, pt, st.sequenceNumber, st.timestamp, ssrc,
          encodePayloadL16 (txReadFold start nc (sr / 1000) st.rings (fun _ => 0) nc).1
            (sr / 1000 * nc)⟩] ∧
      (transmitIteration nc sr enc start pt ssrc st).overruns = st.overruns ∧
      (transmitIteration nc sr enc start pt ssrc st).sequenceNumber =
        (st.sequenceNumber + 1) % 65536 ∧
      (transmitIteration nc sr enc start pt ssrc st).timestamp =
        (st.timestamp + sr / 1000) % 2^32) := by
  have h1 : ¬ start + nc > 128 := by omega
  have h2 : ¬ sr / 1000 > 512 := by omega
  obtain ⟨f1, f2⟩ := txReadFold_inv start nc (sr / 1000) st.rings (fun _ => 0) hwf nc
  constructor
  · rintro ⟨s, hs, hav⟩
    have hflag : (txReadFold start nc (sr / 1000) st.rings (fun _ => 0) nc).2.2 = true :=
      f2.2 ⟨s, hs, hav⟩
    unfold transmitIteration
    dsimp only
    rw [readDeviceChannels_eq start nc (sr / 1000) st.rings (fun _ => 0) h1 h2]
    dsimp only
    rw [hflag]
    simp only [Bool.not_true]
    rw [if_pos trivial]
    exact ⟨rfl, rfl, rfl, rfl⟩
  · intro hfull hL16 hpos
    have hflag : (txReadFold start nc (sr / 1000) st.rings (fun _ => 0) nc).2.2 = false := by
      cases hb : (txReadFold start nc (sr / 1000) st.rings (fun _ => 0) nc).2.2 with
      | false => rfl
      | true =>
        obtain ⟨s, hs, hav⟩ := f2.1 hb
        exact absurd (hfull s hs) (by omega)
    unfold transmitIteration
    dsimp only
    rw [readDeviceChannels_eq start nc (sr / 1000) st.rings (fun _ => 0) h1 h2]
    dsimp only
    rw [hflag]
    simp only [Bool.not_false]
    rw [if_neg (show ¬(true = false) by decide), if_pos hL16]
    unfold sendAndAdvance
    rw [if_neg (show ¬(sr / 1000 * nc * 2 = 0) by omega)]
    exact ⟨rfl, rfl, rfl, rfl⟩

/-- Witness for the amended C2 theorem: the empty-ring iteration increments
the overrun counter once and leaves the sent list, sequence number and
timestamp unchanged. -/
theorem transmitIteration_characterization_witness :
    (transmitIteration 1 48000 "L16".toList 0 96 7 txInit).sent = txInit.sent ∧
    (transmitIteration 1 48000 "L16".toList 0 96 7 txInit).overruns =
      (txInit.overruns + 1) % 2^64 ∧
    (transmitIteration 1 48000 "L16".toList 0 96 7 txInit).sequenceNumber =
      txInit.sequenceNumber ∧
    (transmitIteration 1 48000 "L16".toList 0 96 7 txInit).timestamp = txInit.timestamp :=
  (transmitIteration_characterization 1 48000 0 96 7 "L16".toList txInit
    (by norm_num) (by norm_num) (fun _ => mkRing_wf ℚ 64 0)).1
    ⟨0, by norm_num, by decide⟩

namespace AES67

/- ============================================================
   SDPParser.cpp — string utilities (SDPParser::trim, splitLines,
   splitString, startsWith) over Str = List Char.
   ============================================================ -/

/-- The whitespace set of SDPParser::trim (" \t\n\r\f\v") — also the set
recognized by isspace in the "C" locale, as skipped by std::stoi / stoul. -/
def isWsC (c : Char) : Bool :=
  c.toNat == 32 || c.toNat == 9 || c.toNat == 10 || c.toNat == 13 ||
  c.toNat == 11 || c.toNat == 12

/-- ASCII decimal digit, as matched by strtol / strtoul and by the regex
class backslash-d. -/
def isDigitC (c : Char) : Bool := 48 ≤ c.toNat && c.toNat ≤ 57

/-- SDPParser::trim — drop the whitespace characters from both ends
(find_first_not_of / find_last_not_of). -/
def trim (str : Str) : Str :=
  ((str.dropWhile isWsC).reverse.dropWhile isWsC).reverse

/-- SDPParser::startsWith. -/
def startsWith (str pre : Str) : Bool := str.take pre.length == pre

/-- The split loop shared by SDPParser::splitLines and splitString:
`while (std::getline(stream, part, d))`. A trailing delimiter does not
produce a final empty part, and the empty input yields no parts. -/
def getlineSplit (d : Char) : Str → List Str
  | [] => []
  | c :: cs =>
    if c = d then [] :: getlineSplit d cs
    else
      match getlineSplit d cs with
      | [] => [[c]]
      | l :: ls => (c :: l) :: ls

/-- The `if (!line.empty() && line.back() == '\r') line.pop_back()` step in
SDPParser::splitLines. -/
def stripCR (l : Str) : Str :=
  match l.reverse with
  | '\r' :: r => r.reverse
  | _ => l

/-- SDPParser::splitLines. -/
def splitLines (text : Str) : List Str := (getlineSplit '\n' text).map stripCR

/-- SDPParser::splitString — note that every part is trimmed. -/
def splitString (str : Str) (delimiter : Char) : List Str :=
  (getlineSplit delimiter str).map trim

/-- Model of `str.find(c)` followed by the substr pair: returns the part
before the first occurrence of `c`, and the part after it when found. -/
def splitAtFirst (c : Char) : Str → Str × Option Str
  | [] => ([], none)
  | x :: xs =>
    if x = c then ([], some xs)
    else
      match splitAtFirst c xs with
      | (pre, rest) => (x :: pre, rest)

/- ============================================================
   Decimal printing (ostringstream << for unsigned integers) and the
   std::stoi / std::stoul / std::stoull parsing models.
   ============================================================ -/

/-- Decimal digit character for a value below ten. -/
def toDigit : Nat → Char
  | 0 => '0'
  | 1 => '1'
  | 2 => '2'
  | 3 => '3'
  | 4 => '4'
  | 5 => '5'
  | 6 => '6'
  | 7 => '7'
  | 8 => '8'
  | _ => '9'

/-- Fuel-driven decimal printer (the fuel only serves structural
recursion; `decRepr` always supplies enough). -/
def decReprAux : Nat → Nat → Str
  | 0, _ => []
  | fuel + 1, n =>
    if n < 10 then [toDigit n] else decReprAux fuel (n / 10) ++ [toDigit (n % 10)]

/-- Decimal representation of a natural number, as produced by
`ostringstream <<` and `std::to_string` for unsigned values. -/
def decRepr (n : Nat) : Str := decReprAux (n + 1) n

/-- Numeric value of a digit string, most significant digit first —
the accumulation performed by strtol / strtoul on the digit run. -/
def digitsVal (ds : Str) : Nat := ds.foldl (fun a c => a * 10 + (c.toNat - 48)) 0

/-- The optional single sign accepted by strtol / strtoul after the
whitespace skip. -/
def splitSign (t : Str) : Bool × Str :=
  match t with
  | [] => (false, [])
  | c :: r => if c = '-' then (true, r) else if c = '+' then (false, r) else (false, c :: r)

theorem splitSign_cons (c : Char) (r : Str) :
    splitSign (c :: r) =
      if c = '-' then (true, r) else if c = '+' then (false, r) else (false, c :: r) := rfl

/-- Sign consumed by the strtol scan of `s`. -/
def signOf (s : Str) : Bool := (splitSign (s.dropWhile isWsC)).1

/-- Digit run consumed by the strtol scan of `s` (after whitespace and an
optional sign; trailing non-digits are ignored). -/
def digitsOf (s : Str) : Str := ((splitSign (s.dropWhile isWsC)).2).takeWhile isDigitC

/-- std::stoi: skip whitespace, optional sign, at least one digit
(otherwise invalid_argument), int range check (otherwise out_of_range).
Both exception kinds surface as `none`; every call site in SDPParser.cpp
except parsePTPRefClockAttribute wraps the call in try/catch. -/
def stoiM (s : Str) : Option Int :=
  if digitsOf s = [] then none
  else if (2 : Int)^31 - 1 < (if signOf s then -(digitsVal (digitsOf s) : Int)
                              else (digitsVal (digitsOf s) : Int)) ∨
          (if signOf s then -(digitsVal (digitsOf s) : Int)
           else (digitsVal (digitsOf s) : Int)) < -(2 : Int)^31 then none
  else some (if signOf s then -(digitsVal (digitsOf s) : Int)
             else (digitsVal (digitsOf s) : Int))

/-- std::stoul with unsigned long = 64 bits (macOS LP64): skip whitespace,
optional sign (a negative value wraps modulo 2^64 as in strtoul), at least
one digit, out_of_range when the digit run exceeds ULONG_MAX. -/
def stoulM (s : Str) : Option Nat :=
  if digitsOf s = [] then none
  else if digitsVal (digitsOf s) < 2^64 then
    some (if signOf s then (2^64 - digitsVal (digitsOf s)) % 2^64
          else digitsVal (digitsOf s))
  else none

/-- std::stoull — unsigned long long is also 64 bits. -/
def stoullM (s : Str) : Option Nat := stoulM s

/- ============================================================
   Basic lemmas about the string utilities.
   ============================================================ -/

theorem dropWhile_eq_self_of (p : Char → Bool) (l : Str)
    (h : ∀ c ∈ l, p c = false) : l.dropWhile p = l := by
  induction l with
  | nil => rfl
  | cons c cs ih =>
    rw [List.dropWhile_cons, h c (List.mem_cons_self c cs)]
    simp only [Bool.false_eq_true, if_false]

theorem takeWhile_eq_self_of (p : Char → Bool) (l : Str)
    (h : ∀ c ∈ l, p c = true) : l.takeWhile p = l := by
  induction l with
  | nil => rfl
  | cons c cs ih =>
    rw [List.takeWhile_cons, h c (List.mem_cons_self c cs)]
    simp only [if_true]
    rw [ih (fun c2 hc2 => h c2 (List.mem_cons_of_mem c hc2))]

theorem takeWhile_append_all (p : Char → Bool) (xs ys : Str)
    (h : ∀ c ∈ xs, p c = true) :
    (xs ++ ys).takeWhile p = xs ++ ys.takeWhile p := by
  induction xs with
  | nil => rfl
  | cons c cs ih =>
    rw [List.cons_append, List.takeWhile_cons, h c (List.mem_cons_self c cs)]
    simp only [if_true]
    rw [ih (fun c2 hc2 => h c2 (List.mem_cons_of_mem c hc2))]
    rfl

theorem dropWhile_eq_self_head (p : Char → Bool) (c : Char) (t : Str)
    (h : List.dropWhile p (c :: t) = c :: t) : p c = false := by
  by_contra hb
  have hc : p c = true := by
    cases hp : p c with
    | false => exact absurd hp hb
    | true => rfl
  rw [List.dropWhile_cons, hc] at h
  simp only [if_true] at h
  have h1 : (List.dropWhile p t).length ≤ t.length := (List.dropWhile_suffix p).length_le
  rw [h] at h1
  simp only [List.length_cons] at h1
  omega

theorem getlineSplit_nil (d : Char) : getlineSplit d [] = [] := rfl

theorem getlineSplit_cons (d c : Char) (cs : Str) :
    getlineSplit d (c :: cs) =
      if c = d then [] :: getlineSplit d cs
      else
        match getlineSplit d cs with
        | [] => [[c]]
        | l :: ls => (c :: l) :: ls := rfl

theorem getlineSplit_sep (d : Char) (l rest : Str) (h : d ∉ l) :
    getlineSplit d (l ++ d :: rest) = l :: getlineSplit d rest := by
  induction l with
  | nil =>
    simp only [List.nil_append]
    rw [getlineSplit_cons, if_pos rfl]
  | cons c cs ih =>
    have hcd : c ≠ d := fun he => h (he ▸ List.mem_cons_self c cs)
    have ih2 := ih (fun hm => h (List.mem_cons_of_mem c hm))
    rw [List.cons_append, getlineSplit_cons, if_neg hcd, ih2]

theorem getlineSplit_last (d : Char) (l : Str) (h0 : l ≠ []) (h : d ∉ l) :
    getlineSplit d l = [l] := by
  induction l with
  | nil => exact absurd rfl h0
  | cons c cs ih =>
    have hcd : c ≠ d := fun he => h (he ▸ List.mem_cons_self c cs)
    by_cases hcs : cs = []
    · subst hcs
      rw [getlineSplit_cons, if_neg hcd, getlineSplit_nil]
    · rw [getlineSplit_cons, if_neg hcd,
        ih hcs (fun hm => h (List.mem_cons_of_mem c hm))]

theorem stripCR_eq_of (l : Str) (h : ∀ c r, l.reverse = c :: r → c ≠ '\r') :
    stripCR l = l := by
  unfold stripCR
  split
  · case _ r heq => exact absurd rfl (h '\r' r heq)
  · rfl

theorem stripCR_append_token (a t : Str) (h0 : t ≠ [])
    (h1 : ∀ c ∈ t, isWsC c = false) : stripCR (a ++ t) = a ++ t := by
  apply stripCR_eq_of
  intro c r heq hcr
  rw [List.reverse_append] at heq
  cases ht : t.reverse with
  | nil =>
    have : t = [] := by
      have := congrArg List.reverse ht
      simpa using this
    exact h0 this
  | cons c0 t0 =>
    rw [ht, List.cons_append] at heq
    have hc0 : c0 = c := (List.cons.injEq _ _ _ _ ▸ heq).1
    have hmem : c0 ∈ t := by
      rw [← List.mem_reverse, ht]
      exact List.mem_cons_self c0 t0
    have := h1 c0 hmem
    rw [hc0, hcr] at this
    simp [isWsC] at this

theorem splitAtFirst_found (c : Char) (k v : Str) (h : c ∉ k) :
    splitAtFirst c (k ++ c :: v) = (k, some v) := by
  induction k with
  | nil =>
    simp only [List.nil_append]
    unfold splitAtFirst
    rw [if_pos rfl]
  | cons x xs ih =>
    have hxc : x ≠ c := fun he => h (he ▸ List.mem_cons_self x xs)
    rw [List.cons_append]
    unfold splitAtFirst
    rw [if_neg hxc, ih (fun hm => h (List.mem_cons_of_mem x hm))]

theorem splitAtFirst_not_found (c : Char) (k : Str) (h : c ∉ k) :
    splitAtFirst c k = (k, none) := by
  induction k with
  | nil => rfl
  | cons x xs ih =>
    have hxc : x ≠ c := fun he => h (he ▸ List.mem_cons_self x xs)
    unfold splitAtFirst
    rw [if_neg hxc, ih (fun hm => h (List.mem_cons_of_mem x hm))]

/- ============================================================
   trim lemmas.
   ============================================================ -/

theorem trim_eq_self_of_noWs (t : Str) (h : ∀ c ∈ t, isWsC c = false) :
    trim t = t := by
  unfold trim
  rw [dropWhile_eq_self_of _ _ h]
  rw [dropWhile_eq_self_of _ _ (fun c hc => h c (List.mem_reverse.mp hc))]
  exact List.reverse_reverse t

theorem trim_stable_dropWhile (x : Str) (h : trim x = x) :
    x.reverse.dropWhile isWsC = x.reverse := by
  unfold trim at h
  have h1 : (x.dropWhile isWsC).length ≤ x.length := (List.dropWhile_suffix isWsC).length_le
  have h2 : ((x.dropWhile isWsC).reverse.dropWhile isWsC).length ≤
      (x.dropWhile isWsC).length := by
    have : ((x.dropWhile isWsC).reverse.dropWhile isWsC).length ≤
        (x.dropWhile isWsC).reverse.length := (List.dropWhile_suffix isWsC).length_le
    simpa using this
  have h3 : (((x.dropWhile isWsC).reverse.dropWhile isWsC).reverse).length = x.length := by
    rw [h]
  simp only [List.length_reverse] at h3
  have h4 : (x.dropWhile isWsC).length = x.length := by omega
  have h5 : x.dropWhile isWsC = x :=
    (List.dropWhile_suffix isWsC).eq_of_length h4
  rw [h5] at h
  have h6 := congrArg List.reverse h
  simpa using h6

theorem trim_stable_last_not_ws (x : Str) (h : trim x = x) :
    ∀ c r, x.reverse = c :: r → isWsC c = false := by
  intro c r heq
  have := trim_stable_dropWhile x h
  rw [heq] at this
  exact dropWhile_eq_self_head isWsC c r this

theorem stripCR_of_trim_stable (a x : Str) (h0 : x ≠ []) (h : trim x = x) :
    stripCR (a ++ x) = a ++ x := by
  apply stripCR_eq_of
  intro c r heq hcr
  rw [List.reverse_append] at heq
  cases ht : x.reverse with
  | nil =>
    have : x = [] := by
      have := congrArg List.reverse ht
      simpa using this
    exact h0 this
  | cons c0 t0 =>
    rw [ht, List.cons_append] at heq
    have hc0 : c0 = c := (List.cons.injEq _ _ _ _ ▸ heq).1
    have := trim_stable_last_not_ws x h c0 t0 ht
    rw [hc0, hcr] at this
    simp [isWsC] at this

/- ============================================================
   splitString composition lemmas.
   ============================================================ -/

theorem splitString_sep (d : Char) (t rest : Str) (hd : d ∉ t)
    (ht : trim t = t) :
    splitString (t ++ d :: rest) d = t :: splitString rest d := by
  unfold splitString
  rw [getlineSplit_sep d t rest hd, List.map_cons, ht]

theorem splitString_last (d : Char) (t : Str) (h0 : t ≠ []) (hd : d ∉ t)
    (ht : trim t = t) : splitString t d = [t] := by
  unfold splitString
  rw [getlineSplit_last d t h0 hd, List.map_cons, List.map_nil, ht]

/- ============================================================
   Digit and decimal-representation lemmas.
   ============================================================ -/

theorem toDigit_spec (n : Nat) (h : n < 10) :
    isDigitC (toDigit n) = true ∧ (toDigit n).toNat = 48 + n := by
  interval_cases n <;> exact ⟨rfl, rfl⟩

theorem digit_not_ws (c : Char) (h : isDigitC c = true) : isWsC c = false := by
  simp only [isDigitC, Bool.and_eq_true, decide_eq_true_eq] at h
  simp only [isWsC, Bool.or_eq_false_iff, beq_eq_false_iff_ne]
  omega

theorem digit_ne_char (c : Char) (h : isDigitC c = true) :
    c ≠ '\n' ∧ c ≠ '\r' ∧ c ≠ '/' ∧ c ≠ ':' ∧ c ≠ '-' ∧ c ≠ '+' ∧ c ≠ ' ' := by
  simp only [isDigitC, Bool.and_eq_true, decide_eq_true_eq] at h
  refine ⟨?_, ?_, ?_, ?_, ?_, ?_, ?_⟩ <;>
    (intro he; have := congrArg Char.toNat he; simp at this; omega)

theorem decReprAux_congr (f1 : Nat) : ∀ f2 n, n < f1 → n < f2 →
    decReprAux f1 n = decReprAux f2 n := by
  induction f1 with
  | zero => intro f2 n h1 h2; omega
  | succ f ih =>
    intro f2 n h1 h2
    cases f2 with
    | zero => omega
    | succ f2p =>
      unfold decReprAux
      by_cases h10 : n < 10
      · rw [if_pos h10, if_pos h10]
      · rw [if_neg h10, if_neg h10]
        have hlt : n / 10 < n := by omega
        rw [ih f2p (n / 10) (by omega) (by omega)]

theorem decReprAux_succ (fuel n : Nat) :
    decReprAux (fuel + 1) n =
      if n < 10 then [toDigit n] else decReprAux fuel (n / 10) ++ [toDigit (n % 10)] := rfl

theorem decRepr_base (n : Nat) (h : n < 10) : decRepr n = [toDigit n] := by
  show decReprAux (n + 1) n = [toDigit n]
  rw [decReprAux_succ, if_pos h]

theorem decRepr_step (n : Nat) (h : 10 ≤ n) :
    decRepr n = decRepr (n / 10) ++ [toDigit (n % 10)] := by
  show decReprAux (n + 1) n = decReprAux (n / 10 + 1) (n / 10) ++ [toDigit (n % 10)]
  rw [decReprAux_succ, if_neg (by omega)]
  rw [decReprAux_congr n (n / 10 + 1) (n / 10) (by omega) (by omega)]

theorem decRepr_digits (n : Nat) : ∀ c ∈ decRepr n, isDigitC c = true := by
  induction n using Nat.strong_induction_on with
  | _ n ih =>
    by_cases h10 : n < 10
    · rw [decRepr_base n h10]
      intro c hc
      rw [List.mem_singleton] at hc
      rw [hc]
      exact (toDigit_spec n h10).1
    · rw [decRepr_step n (by omega)]
      intro c hc
      rw [List.mem_append] at hc
      cases hc with
      | inl hc => exact ih (n / 10) (by omega) c hc
      | inr hc =>
        rw [List.mem_singleton] at hc
        rw [hc]
        exact (toDigit_spec (n % 10) (by omega)).1

theorem decRepr_ne_nil (n : Nat) : decRepr n ≠ [] := by
  by_cases h10 : n < 10
  · rw [decRepr_base n h10]; simp
  · rw [decRepr_step n (by omega)]; simp

theorem digitsVal_append1 (xs : Str) (c : Char) :
    digitsVal (xs ++ [c]) = digitsVal xs * 10 + (c.toNat - 48) := by
  unfold digitsVal
  rw [List.foldl_append]
  rfl

theorem digitsVal_decRepr (n : Nat) : digitsVal (decRepr n) = n := by
  induction n using Nat.strong_induction_on with
  | _ n ih =>
    by_cases h10 : n < 10
    · rw [decRepr_base n h10]
      show digitsVal ([] ++ [toDigit n]) = n
      rw [digitsVal_append1]
      have := (toDigit_spec n h10).2
      unfold digitsVal
      simp only [List.foldl_nil]
      omega
    · rw [decRepr_step n (by omega), digitsVal_append1, ih (n / 10) (by omega)]
      have := (toDigit_spec (n % 10) (by omega)).2
      omega

theorem decRepr_trim (n : Nat) : trim (decRepr n) = decRepr n :=
  trim_eq_self_of_noWs _ (fun c hc => digit_not_ws c (decRepr_digits n c hc))

theorem decRepr_not_mem (n : Nat) (c : Char) (h : c ∈ decRepr n) :
    c ≠ '\n' ∧ c ≠ '\r' ∧ c ≠ '/' ∧ c ≠ ':' ∧ c ≠ ' ' := by
  have hd := digit_ne_char c (decRepr_digits n c h)
  exact ⟨hd.1, hd.2.1, hd.2.2.1, hd.2.2.2.1, hd.2.2.2.2.2.2⟩

/- ============================================================
   stoi / stoul round trips on emitted decimal strings.
   ============================================================ -/

theorem digitsOf_decRepr (n : Nat) : digitsOf (decRepr n) = decRepr n := by
  unfold digitsOf
  rw [dropWhile_eq_self_of _ _
    (fun c hc => digit_not_ws c (decRepr_digits n c hc))]
  obtain ⟨c, cs, hc⟩ : ∃ c cs, decRepr n = c :: cs := by
    cases hd : decRepr n with
    | nil => exact absurd hd (decRepr_ne_nil n)
    | cons c cs => exact ⟨c, cs, rfl⟩
  have hcd := decRepr_digits n c (hc ▸ List.mem_cons_self c cs)
  have hne := digit_ne_char c hcd
  rw [hc, splitSign_cons, if_neg hne.2.2.2.2.1, if_neg hne.2.2.2.2.2.1]
  dsimp only
  rw [← hc]
  exact takeWhile_eq_self_of _ _ (decRepr_digits n)

theorem signOf_decRepr (n : Nat) : signOf (decRepr n) = false := by
  unfold signOf
  rw [dropWhile_eq_self_of _ _
    (fun c hc => digit_not_ws c (decRepr_digits n c hc))]
  obtain ⟨c, cs, hc⟩ : ∃ c cs, decRepr n = c :: cs := by
    cases hd : decRepr n with
    | nil => exact absurd hd (decRepr_ne_nil n)
    | cons c cs => exact ⟨c, cs, rfl⟩
  have hcd := decRepr_digits n c (hc ▸ List.mem_cons_self c cs)
  have hne := digit_ne_char c hcd
  rw [hc, splitSign_cons, if_neg hne.2.2.2.2.1, if_neg hne.2.2.2.2.2.1]

theorem stoulM_decRepr (n : Nat) (h : n < 2^64) : stoulM (decRepr n) = some n := by
  unfold stoulM
  rw [digitsOf_decRepr, signOf_decRepr, digitsVal_decRepr]
  rw [if_neg (decRepr_ne_nil n), if_pos h]
  simp only [Bool.false_eq_true, if_false]

theorem stoullM_decRepr (n : Nat) (h : n < 2^64) : stoullM (decRepr n) = some n :=
  stoulM_decRepr n h

theorem stoiM_decRepr (n : Nat) (h : n ≤ 2^31 - 1) :
    stoiM (decRepr n) = some (n : Int) := by
  unfold stoiM
  rw [digitsOf_decRepr, signOf_decRepr, digitsVal_decRepr]
  rw [if_neg (decRepr_ne_nil n)]
  simp only [Bool.false_eq_true, if_false]
  rw [if_neg ?h]
  case h =>
    push_neg
    constructor
    · have : (n : Int) ≤ ((2:Nat)^31 - 1 : Nat) := by exact_mod_cast h
      calc (n : Int) ≤ ((2:Nat)^31 - 1 : Nat) := this
        _ ≤ 2^31 - 1 := by norm_num
    · have : (0 : Int) ≤ (n : Int) := Int.natCast_nonneg n
      omega

end AES67

namespace AES67

/- ============================================================
   SDPSession (SDPParser.h) with its member initializers, and the
   std::map<std::string,std::string> customAttributes as an association
   list sorted by the lexicographic std::string order.
   ============================================================ -/

/-- std::string operator< (lexicographic by character code). -/
def ltStr : Str → Str → Bool
  | [], [] => false
  | [], _ :: _ => true
  | _ :: _, [] => false
  | a :: as, b :: bs =>
    if a < b then true else if b < a then false else ltStr as bs

/-- Ordered insert-or-assign, the effect of `map[key] = value`. -/
def mapInsertAttr : List (Str × Str) → Str → Str → List (Str × Str)
  | [], k, v => [(k, v)]
  | (k2, v2) :: rest, k, v =>
    if ltStr k k2 then (k, v) :: (k2, v2) :: rest
    else if k = k2 then (k, v) :: rest
    else (k2, v2) :: mapInsertAttr rest k v

/-- SDPSession (SDPParser.h lines 23-76) with the header's member
initializers as field defaults. Field order follows the header; the
unsigned members (uint8_t ttl and payloadType, uint16_t port and
numChannels, uint32_t sampleRate, ptime and framecount, uint64_t IDs and
times) are Nats kept reduced modulo their width at every narrowing
assignment, and int ptpDomain is an Int. -/
structure SDPSession where
  sessionName : Str := []
  sessionInfo : Str := []
  sessionID : Nat := 0
  sessionVersion : Nat := 0
  originUsername : Str := "-".toList
  originAddress : Str := []
  originAddressType : Str := "IN".toList
  originNetworkType : Str := "IP4".toList
  connectionAddress : Str := []
  connectionType : Str := "IN".toList
  connectionNetwork : Str := "IP4".toList
  ttl : Nat := 32
  timeStart : Nat := 0
  timeStop : Nat := 0
  mediaType : Str := "audio".toList
  port : Nat := 5004
  transport : Str := "RTP/AVP".toList
  payloadType : Nat := 96
  encoding : Str := "L24".toList
  sampleRate : Nat := 48000
  numChannels : Nat := 2
  ptime : Nat := 1
  framecount : Nat := 48
  sourceAddress : Str := []
  ptpDomain : Int := 0
  ptpMasterMAC : Str := []
  mediaClockType : Str := "direct=0".toList
  direction : Str := "recvonly".toList
  customAttributes : List (Str × Str) := []
deriving DecidableEq

/-- SDPSession::getValidationErrors (SDPParser.cpp lines 24-52). -/
def SDPSession.getValidationErrors (s : SDPSession) : List Str :=
  (if s.sessionName = [] then ["Session name (s=) is required".toList] else []) ++
  (if s.connectionAddress = [] then ["Connection address (c=) is required".toList] else []) ++
  (if s.port = 0 then ["Port must be non-zero".toList] else []) ++
  (if s.encoding ≠ "L16".toList ∧ s.encoding ≠ "L24".toList ∧ s.encoding ≠ "AM824".toList
   then ["Invalid encoding: ".toList ++ s.encoding] else []) ++
  (if s.sampleRate = 0 then ["Sample rate must be non-zero".toList] else []) ++
  (if s.numChannels = 0 then ["Channel count must be non-zero".toList] else [])

/-- SDPSession::isValid — the validation-error list is empty. -/
def SDPSession.isValid (s : SDPSession) : Bool := s.getValidationErrors.isEmpty

/- ============================================================
   Line parsers (SDPParser.cpp lines 141-347). Each C++ helper mutates
   the session and returns bool; a false return makes parseString return
   nullopt at once, so the partial mutations made before a failed helper
   returns are unobservable and the helpers are modeled atomically:
   `some s2` for a true return with final state s2, `none` for false.
   ============================================================ -/

/-- SDPParser::parseOriginLine. -/
def parseOriginLine (line : Str) (session : SDPSession) : Option SDPSession :=
  let parts := splitString line ' '
  if parts.length < 6 then none
  else
    match stoullM (parts.getD 1 []), stoullM (parts.getD 2 []) with
    | some sid, some sver =>
      some { session with
        originUsername := parts.getD 0 [],
        sessionID := sid,
        sessionVersion := sver,
        originNetworkType := parts.getD 3 [],
        originAddressType := parts.getD 4 [],
        originAddress := parts.getD 5 [] }
    | _, _ => none

/-- SDPParser::parseConnectionLine. A slash splits address and TTL; a
failed TTL parse falls back to 32, and the int result narrows to uint8_t. -/
def parseConnectionLine (line : Str) (session : SDPSession) : Option SDPSession :=
  let parts := splitString line ' '
  if parts.length < 3 then none
  else
    let addrPart := parts.getD 2 []
    match splitAtFirst '/' addrPart with
    | (pre, some post) =>
      some { session with
        connectionType := parts.getD 0 [],
        connectionNetwork := parts.getD 1 [],
        connectionAddress := pre,
        ttl := match stoiM post with
               | some v => (v % 256).toNat
               | none => 32 }
    | (_, none) =>
      some { session with
        connectionType := parts.getD 0 [],
        connectionNetwork := parts.getD 1 [],
        connectionAddress := addrPart }

/-- SDPParser::parseTimingLine. -/
def parseTimingLine (line : Str) (session : SDPSession) : Option SDPSession :=
  let parts := splitString line ' '
  if parts.length < 2 then none
  else
    match stoullM (parts.getD 0 []), stoullM (parts.getD 1 []) with
    | some ts, some tp => some { session with timeStart := ts, timeStop := tp }
    | _, _ => none

/-- SDPParser::parseMediaLine. stoi results narrow to uint16_t (port) and
uint8_t (payloadType). -/
def parseMediaLine (line : Str) (session : SDPSession) : Option SDPSession :=
  let parts := splitString line ' '
  if parts.length < 4 then none
  else
    match stoiM (parts.getD 1 []) with
    | none => none
    | some p =>
      match stoiM (parts.getD 3 []) with
      | none => none
      | some pt =>
        some { session with
          mediaType := parts.getD 0 [],
          port := (p % 65536).toNat,
          transport := parts.getD 2 [],
          payloadType := (pt % 256).toNat }

/-- SDPParser::parseRTPMapAttribute. stoul narrows to uint32_t
(sampleRate), stoi to uint16_t (numChannels). -/
def parseRTPMapAttribute (value : Str) (session : SDPSession) : Option SDPSession :=
  let parts := splitString value ' '
  if parts.length < 2 then none
  else
    let formatParts := splitString (parts.getD 1 []) '/'
    if formatParts.length < 2 then none
    else
      match stoulM (formatParts.getD 1 []) with
      | none => none
      | some rate =>
        if 3 ≤ formatParts.length then
          match stoiM (formatParts.getD 2 []) with
          | none => none
          | some nch =>
            some { session with
              encoding := formatParts.getD 0 [],
              sampleRate := rate % 2^32,
              numChannels := (nch % 65536).toNat }
        else
          some { session with
            encoding := formatParts.getD 0 [],
            sampleRate := rate % 2^32 }

/-- SDPParser::parsePTimeAttribute. -/
def parsePTimeAttribute (value : Str) (session : SDPSession) : Option SDPSession :=
  match stoulM value with
  | some v => some { session with ptime := v % 2^32 }
  | none => none

/-- SDPParser::parseFrameCountAttribute. -/
def parseFrameCountAttribute (value : Str) (session : SDPSession) : Option SDPSession :=
  match stoulM value with
  | some v => some { session with framecount := v % 2^32 }
  | none => none

/-- SDPParser::parseSourceFilterAttribute — takes parts[4] of the
space-split value. -/
def parseSourceFilterAttribute (value : Str) (session : SDPSession) : Option SDPSession :=
  let parts := splitString value ' '
  if 5 ≤ parts.length then some { session with sourceAddress := parts.getD 4 [] }
  else none

/-- Character class of the ts-refclk regex capture `[0-9A-Fa-f\-:]`. -/
def isPTPClassChar (c : Char) : Bool :=
  isDigitC c || (65 ≤ c.toNat && c.toNat ≤ 70) || (97 ≤ c.toNat && c.toNat ≤ 102) ||
  c.toNat == 45 || c.toNat == 58

/-- Greedy-with-backtracking match of `([0-9A-Fa-f\-:]+):domain-nmbr=(\d+)`
against `rest`, anchored at its start: the capture length starts at the
maximal class-character run (the caller passes its length) and shrinks
until the literal `:domain-nmbr=` followed by at least one digit fits,
exactly as the ECMAScript backtracking of std::regex does. Returns the two
captures (the class run and the greedy digit run). -/
def ptpBacktrack (rest : Str) : Nat → Option (Str × Str)
  | 0 => none
  | len + 1 =>
    let tail := rest.drop (len + 1)
    if startsWith tail ":domain-nmbr=".toList then
      let ds := (tail.drop 13).takeWhile isDigitC
      if ds = [] then ptpBacktrack rest len else some (rest.take (len + 1), ds)
    else ptpBacktrack rest len

/-- std::regex_search for `ptp=IEEE1588-2008:([0-9A-Fa-f\-:]+):domain-nmbr=(\d+)`:
try each start position from the left; where the literal prefix matches,
run the backtracking capture. -/
def ptpSearch : Str → Option (Str × Str)
  | [] => none
  | c :: cs =>
    if startsWith (c :: cs) "ptp=IEEE1588-2008:".toList then
      let rest := (c :: cs).drop 18
      match ptpBacktrack rest (rest.takeWhile isPTPClassChar).length with
      | some r => some r
      | none => ptpSearch cs
    else ptpSearch cs

/-- Outcome of a line handler: ok with the updated session, a false
return (bad), or a C++ exception that propagates out of parseString
(exn). Only parsePTPRefClockAttribute can produce exn: its std::stoi call
is the only one outside a try/catch. -/
inductive ARes where
  | ok (s : SDPSession)
  | bad
  | exn
deriving DecidableEq

def toARes : Option SDPSession → ARes
  | some s => ARes.ok s
  | none => ARes.bad

/-- SDPParser::parsePTPRefClockAttribute. On a regex match it assigns
ptpMasterMAC and then `session.ptpDomain = std::stoi(match[2])` with no
try/catch: a digit run above INT_MAX makes stoi throw out_of_range, which
propagates out of parseString. The match guarantees a nonempty digit run,
so invalid_argument is impossible. -/
def parsePTPRefClockAttribute (value : Str) (session : SDPSession) : ARes :=
  match ptpSearch value with
  | some (mac, ds) =>
    if digitsVal ds ≤ 2^31 - 1 then
      ARes.ok { session with ptpMasterMAC := mac, ptpDomain := (digitsVal ds : Int) }
    else ARes.exn
  | none => ARes.bad

/-- SDPParser::parseMediaClockAttribute. -/
def parseMediaClockAttribute (value : Str) (session : SDPSession) : Option SDPSession :=
  some { session with mediaClockType := value }

/-- SDPParser::parseAttributeLine — split at the first colon, dispatch on
the attribute name, store unknown attributes in customAttributes. -/
def parseAttributeLine (line : Str) (session : SDPSession) : ARes :=
  let p := splitAtFirst ':' line
  let attrName := p.1
  let value := p.2.getD []
  if attrName = "rtpmap".toList then toARes (parseRTPMapAttribute value session)
  else if attrName = "ptime".toList then toARes (parsePTimeAttribute value session)
  else if attrName = "framecount".toList then toARes (parseFrameCountAttribute value session)
  else if attrName = "source-filter".toList then toARes (parseSourceFilterAttribute value session)
  else if attrName = "ts-refclk".toList then parsePTPRefClockAttribute value session
  else if attrName = "mediaclk".toList then toARes (parseMediaClockAttribute value session)
  else if attrName = "recvonly".toList ∨ attrName = "sendonly".toList ∨
          attrName = "sendrecv".toList ∨ attrName = "inactive".toList then
    ARes.ok { session with direction := attrName }
  else
    ARes.ok { session with
      customAttributes := mapInsertAttr session.customAttributes attrName value }

/-- One iteration of the parseString line loop: skip empty, comment and
malformed lines, dispatch on the type character. -/
def processLine (session : SDPSession) (line : Str) : ARes :=
  match line with
  | [] => ARes.ok session
  | c0 :: rest =>
    if c0 = '#' then ARes.ok session
    else
      match rest with
      | [] => ARes.ok session
      | c1 :: value =>
        if c1 ≠ '=' then ARes.ok session
        else if c0 = 'v' then ARes.ok session
        else if c0 = 'o' then toARes (parseOriginLine value session)
        else if c0 = 's' then ARes.ok { session with sessionName := trim value }
        else if c0 = 'i' then ARes.ok { session with sessionInfo := trim value }
        else if c0 = 'c' then toARes (parseConnectionLine value session)
        else if c0 = 't' then toARes (parseTimingLine value session)
        else if c0 = 'm' then toARes (parseMediaLine value session)
        else if c0 = 'a' then parseAttributeLine value session
        else ARes.ok session

/-- The parseString line loop: abort on the first bad handler or
propagated exception. -/
def processLines : SDPSession → List Str → ARes
  | session, [] => ARes.ok session
  | session, l :: ls =>
    match processLine session l with
    | ARes.ok s2 => processLines s2 ls
    | ARes.bad => ARes.bad
    | ARes.exn => ARes.exn

/-- Observable outcome of SDPParser::parseString: a populated session,
nullopt, or an uncaught exception escaping the call. -/
inductive POut where
  | success (s : SDPSession)
  | failure
  | thrown
deriving DecidableEq

/-- SDPParser::parseString (SDPParser.cpp lines 69-139). -/
def parseString (sdp : Str) : POut :=
  match processLines {} (splitLines sdp) with
  | ARes.ok s => if s.isValid then POut.success s else POut.failure
  | ARes.bad => POut.failure
  | ARes.exn => POut.thrown

/- ============================================================
   Generation (SDPParser.cpp lines 353-479). generate is parameterized by
   timeNow, the value of time(nullptr) substituted when sessionID is 0.
   ============================================================ -/

/-- SDPParser::generateOriginLine. -/
def generateOriginLine (timeNow : Nat) (session : SDPSession) : Str :=
  "o=".toList ++ session.originUsername
    ++ " ".toList ++ decRepr (if session.sessionID = 0 then timeNow % 2^64 else session.sessionID)
    ++ " ".toList ++ decRepr session.sessionVersion
    ++ " ".toList ++ session.originNetworkType
    ++ " ".toList ++ session.originAddressType
    ++ " ".toList ++ session.originAddress

/-- SDPParser::generateConnectionLine. -/
def generateConnectionLine (session : SDPSession) : Str :=
  "c=".toList ++ session.connectionType
    ++ " ".toList ++ session.connectionNetwork
    ++ " ".toList ++ session.connectionAddress
    ++ (if session.ttl ≠ 0 then "/".toList ++ decRepr session.ttl else [])

/-- SDPParser::generateMediaLine. -/
def generateMediaLine (session : SDPSession) : Str :=
  "m=".toList ++ session.mediaType
    ++ " ".toList ++ decRepr session.port
    ++ " ".toList ++ session.transport
    ++ " ".toList ++ decRepr session.payloadType

/-- SDPParser::generateAttributes. ptpDomain is printed through
`operator<< (int)`; it is only printed when nonnegative, so decRepr of its
toNat agrees with the C++ output. -/
def generateAttributes (session : SDPSession) : List Str :=
  ("a=rtpmap:".toList ++ decRepr session.payloadType
     ++ " ".toList ++ session.encoding
     ++ "/".toList ++ decRepr session.sampleRate
     ++ "/".toList ++ decRepr session.numChannels)
  :: ("a=ptime:".toList ++ decRepr session.ptime)
  :: ("a=framecount:".toList ++ decRepr session.framecount)
  :: ("a=".toList ++ session.direction)
  :: ((if session.sourceAddress ≠ [] then
        ["a=source-filter: incl IN IP4 ".toList ++ session.connectionAddress
          ++ " ".toList ++ session.sourceAddress]
      else [])
  ++ (if 0 ≤ session.ptpDomain ∧ session.ptpMasterMAC ≠ [] then
        ["a=ts-refclk:ptp=IEEE1588-2008:".toList ++ session.ptpMasterMAC
          ++ ":domain-nmbr=".toList ++ decRepr session.ptpDomain.toNat]
      else [])
  ++ (if session.mediaClockType ≠ [] then
        ["a=mediaclk:".toList ++ session.mediaClockType]
      else [])
  ++ session.customAttributes.map (fun kv =>
       if kv.2 = [] then "a=".toList ++ kv.1
       else "a=".toList ++ kv.1 ++ ":".toList ++ kv.2))

/-- The lines written by SDPParser::generate, in order; each is followed
by one newline in the output stream. -/
def generateLines (timeNow : Nat) (session : SDPSession) : List Str :=
  "v=0".toList
  :: generateOriginLine timeNow session
  :: ("s=".toList ++ session.sessionName)
  :: ((if session.sessionInfo ≠ [] then ["i=".toList ++ session.sessionInfo] else [])
  ++ generateConnectionLine session
  :: ("t=".toList ++ decRepr session.timeStart ++ " ".toList ++ decRepr session.timeStop)
  :: generateMediaLine session
  :: generateAttributes session)

/-- Join with a newline after every line, as the ostringstream does. -/
def joinNL (lines : List Str) : Str := lines.foldr (fun l acc => l ++ '\n' :: acc) []

/-- SDPParser::generate. -/
def generate (timeNow : Nat) (session : SDPSession) : Str :=
  joinNL (generateLines timeNow session)

end AES67

namespace AES67

/- ============================================================
   Helper predicates and membership lemmas for the round-trip proof.
   ============================================================ -/

/-- A string with no whitespace characters at all (a single token on a
space-separated line). -/
@[reducible] def noWs (t : Str) : Prop := ∀ c ∈ t, isWsC c = false

theorem noWs_append (a b : Str) (ha : noWs a) (hb : noWs b) : noWs (a ++ b) := by
  intro c hc
  rw [List.mem_append] at hc
  cases hc with
  | inl h => exact ha c h
  | inr h => exact hb c h

theorem noWs_cons (x : Char) (t : Str) (hx : isWsC x = false) (ht : noWs t) :
    noWs (x :: t) := by
  intro c hc
  rw [List.mem_cons] at hc
  cases hc with
  | inl h => exact h ▸ hx
  | inr h => exact ht c h

theorem noWs_decRepr (n : Nat) : noWs (decRepr n) :=
  fun c hc => digit_not_ws c (decRepr_digits n c hc)

theorem not_mem_of_noWs (t : Str) (h : noWs t) (d : Char) (hd : isWsC d = true) :
    d ∉ t := fun hm => by rw [h d hm] at hd; exact Bool.false_ne_true hd

theorem notMem_append (c : Char) (a b : Str) (ha : c ∉ a) (hb : c ∉ b) :
    c ∉ a ++ b := by
  rw [List.mem_append]
  intro h
  cases h with
  | inl h => exact ha h
  | inr h => exact hb h

theorem notMem_cons (c x : Char) (t : Str) (h1 : c ≠ x) (h2 : c ∉ t) :
    c ∉ x :: t := by
  rw [List.mem_cons]
  intro h
  cases h with
  | inl h => exact h1 h
  | inr h => exact h2 h

theorem noNL_decRepr (n : Nat) : '\n' ∉ decRepr n :=
  fun hm => (decRepr_not_mem n '\n' hm).1 rfl

theorem noCR_decRepr (n : Nat) : '\r' ∉ decRepr n :=
  fun hm => (decRepr_not_mem n '\r' hm).2.1 rfl

theorem noNL_of_noWs (t : Str) (h : noWs t) : '\n' ∉ t :=
  not_mem_of_noWs t h '\n' (by decide)

theorem noCR_of_noWs (t : Str) (h : noWs t) : '\r' ∉ t :=
  not_mem_of_noWs t h '\r' (by decide)

theorem stripCR_noCR (l : Str) (h : '\r' ∉ l) : stripCR l = l := by
  apply stripCR_eq_of
  intro c r heq hcr
  apply h
  rw [← List.mem_reverse, heq, hcr]
  exact List.mem_cons_self _ _

theorem ptpClass_not_nl_cr (c : Char) (h : isPTPClassChar c = true) :
    c ≠ '\n' ∧ c ≠ '\r' := by
  simp only [isPTPClassChar, isDigitC, Bool.or_eq_true, Bool.and_eq_true,
    decide_eq_true_eq, beq_iff_eq] at h
  constructor <;>
    (intro he; have := congrArg Char.toNat he; simp at this; omega)

/- ============================================================
   joinNL / splitLines inverse.
   ============================================================ -/

theorem joinNL_nil : joinNL [] = [] := rfl

theorem joinNL_cons (l : Str) (ls : List Str) :
    joinNL (l :: ls) = l ++ '\n' :: joinNL ls := rfl

theorem splitLines_joinNL (ls : List Str)
    (h : ∀ l ∈ ls, '\n' ∉ l ∧ stripCR l = l) :
    splitLines (joinNL ls) = ls := by
  induction ls with
  | nil => rfl
  | cons l rest ih =>
    rw [joinNL_cons]
    unfold splitLines
    rw [getlineSplit_sep '\n' l (joinNL rest) (h l (List.mem_cons_self l rest)).1]
    rw [List.map_cons, (h l (List.mem_cons_self l rest)).2]
    have := ih (fun l2 hl2 => h l2 (List.mem_cons_of_mem l hl2))
    unfold splitLines at this
    rw [this]

/- ============================================================
   ltStr and mapInsertAttr lemmas.
   ============================================================ -/

theorem ltStr_irrefl (a : Str) : ltStr a a = false := by
  induction a with
  | nil => rfl
  | cons c cs ih =>
    unfold ltStr
    rw [if_neg (lt_irrefl c), if_neg (lt_irrefl c)]
    exact ih

theorem ltStr_asymm (a b : Str) (h : ltStr a b = true) : ltStr b a = false := by
  induction a generalizing b with
  | nil =>
    cases b with
    | nil => rfl
    | cons x xs => rfl
  | cons c cs ih =>
    cases b with
    | nil => exact absurd h (by rw [ltStr]; simp)
    | cons x xs =>
      unfold ltStr at h ⊢
      by_cases hcx : c < x
      · rw [if_neg (fun hxc => absurd hcx (not_lt_of_gt hxc)), if_pos hcx]
      · rw [if_neg hcx] at h
        by_cases hxc : x < c
        · rw [if_pos hxc] at h
          exact absurd h (by simp)
        · rw [if_neg hxc] at h
          rw [if_neg hxc, if_neg hcx]
          exact ih xs h

theorem ltStr_ne (a b : Str) (h : ltStr a b = true) : a ≠ b := by
  intro he
  rw [he, ltStr_irrefl] at h
  exact Bool.false_ne_true h

theorem mapInsert_append_of_gt (m : List (Str × Str)) (k v : Str)
    (h : ∀ p ∈ m, ltStr p.1 k = true) :
    mapInsertAttr m k v = m ++ [(k, v)] := by
  induction m with
  | nil => rfl
  | cons p rest ih =>
    obtain ⟨k2, v2⟩ := p
    have h2 := h (k2, v2) (List.mem_cons_self _ _)
    unfold mapInsertAttr
    rw [if_neg (by rw [ltStr_asymm k2 k h2]; exact Bool.false_ne_true)]
    rw [if_neg (fun he => ltStr_ne k2 k h2 he.symm)]
    rw [ih (fun p hp => h p (List.mem_cons_of_mem _ hp))]
    rfl

/- ============================================================
   processLine dispatch and parseAttributeLine dispatch lemmas.
   ============================================================ -/

theorem processLine_v (s : SDPSession) (value : Str) :
    processLine s ('v' :: '=' :: value) = ARes.ok s := rfl

theorem processLine_o (s : SDPSession) (value : Str) :
    processLine s ('o' :: '=' :: value) = toARes (parseOriginLine value s) := rfl

theorem processLine_s (s : SDPSession) (value : Str) :
    processLine s ('s' :: '=' :: value) = ARes.ok { s with sessionName := trim value } := rfl

theorem processLine_i (s : SDPSession) (value : Str) :
    processLine s ('i' :: '=' :: value) = ARes.ok { s with sessionInfo := trim value } := rfl

theorem processLine_c (s : SDPSession) (value : Str) :
    processLine s ('c' :: '=' :: value) = toARes (parseConnectionLine value s) := rfl

theorem processLine_t (s : SDPSession) (value : Str) :
    processLine s ('t' :: '=' :: value) = toARes (parseTimingLine value s) := rfl

theorem processLine_m (s : SDPSession) (value : Str) :
    processLine s ('m' :: '=' :: value) = toARes (parseMediaLine value s) := rfl

theorem processLine_a (s : SDPSession) (value : Str) :
    processLine s ('a' :: '=' :: value) = parseAttributeLine value s := rfl

theorem processLines_nil (s : SDPSession) : processLines s [] = ARes.ok s := rfl

theorem processLines_cons (s : SDPSession) (l : Str) (ls : List Str) :
    processLines s (l :: ls) =
      match processLine s l with
      | ARes.ok s2 => processLines s2 ls
      | ARes.bad => ARes.bad
      | ARes.exn => ARes.exn := rfl

theorem processLines_append (s : SDPSession) (xs ys : List Str) :
    processLines s (xs ++ ys) =
      match processLines s xs with
      | ARes.ok s2 => processLines s2 ys
      | ARes.bad => ARes.bad
      | ARes.exn => ARes.exn := by
  induction xs generalizing s with
  | nil => rfl
  | cons l ls ih =>
    rw [List.cons_append, processLines_cons, processLines_cons]
    cases processLine s l with
    | ok s2 => exact ih s2
    | bad => rfl
    | exn => rfl

theorem parseAttributeLine_rtpmap (v : Str) (s : SDPSession) :
    parseAttributeLine ("rtpmap:".toList ++ v) s = toARes (parseRTPMapAttribute v s) := rfl

theorem parseAttributeLine_ptime (v : Str) (s : SDPSession) :
    parseAttributeLine ("ptime:".toList ++ v) s = toARes (parsePTimeAttribute v s) := rfl

theorem parseAttributeLine_framecount (v : Str) (s : SDPSession) :
    parseAttributeLine ("framecount:".toList ++ v) s =
      toARes (parseFrameCountAttribute v s) := rfl

theorem parseAttributeLine_sourcefilter (v : Str) (s : SDPSession) :
    parseAttributeLine ("source-filter:".toList ++ v) s =
      toARes (parseSourceFilterAttribute v s) := rfl

theorem parseAttributeLine_tsrefclk (v : Str) (s : SDPSession) :
    parseAttributeLine ("ts-refclk:".toList ++ v) s =
      parsePTPRefClockAttribute v s := rfl

theorem parseAttributeLine_mediaclk (v : Str) (s : SDPSession) :
    parseAttributeLine ("mediaclk:".toList ++ v) s =
      toARes (parseMediaClockAttribute v s) := rfl

theorem parseAttributeLine_direction (d : Str) (s : SDPSession)
    (hd : d = "recvonly".toList ∨ d = "sendonly".toList ∨
          d = "sendrecv".toList ∨ d = "inactive".toList) :
    parseAttributeLine d s = ARes.ok { s with direction := d } := by
  rcases hd with h | h | h | h <;> (subst h; rfl)

theorem parseAttributeLine_custom (k v : Str) (s : SDPSession)
    (hk : ':' ∉ k)
    (hrec : k ∉ ["rtpmap".toList, "ptime".toList, "framecount".toList,
      "source-filter".toList, "ts-refclk".toList, "mediaclk".toList,
      "recvonly".toList, "sendonly".toList, "sendrecv".toList, "inactive".toList]) :
    parseAttributeLine (k ++ ':' :: v) s =
      ARes.ok { s with customAttributes := mapInsertAttr s.customAttributes k v } := by
  simp only [List.mem_cons, List.mem_singleton, not_or] at hrec
  obtain ⟨h1, h2, h3, h4, h5, h6, h7, h8, h9, h10⟩ := hrec
  unfold parseAttributeLine
  rw [splitAtFirst_found ':' k v hk]
  dsimp only [Option.getD]
  rw [if_neg h1, if_neg h2, if_neg h3, if_neg h4, if_neg h5, if_neg h6]
  rw [if_neg (by push_neg; exact ⟨h7, h8, h9, h10.1⟩)]

theorem parseAttributeLine_custom_novalue (k : Str) (s : SDPSession)
    (hk : ':' ∉ k)
    (hrec : k ∉ ["rtpmap".toList, "ptime".toList, "framecount".toList,
      "source-filter".toList, "ts-refclk".toList, "mediaclk".toList,
      "recvonly".toList, "sendonly".toList, "sendrecv".toList, "inactive".toList]) :
    parseAttributeLine k s =
      ARes.ok { s with customAttributes := mapInsertAttr s.customAttributes k [] } := by
  simp only [List.mem_cons, List.mem_singleton, not_or] at hrec
  obtain ⟨h1, h2, h3, h4, h5, h6, h7, h8, h9, h10⟩ := hrec
  unfold parseAttributeLine
  rw [splitAtFirst_not_found ':' k hk]
  dsimp only [Option.getD]
  rw [if_neg h1, if_neg h2, if_neg h3, if_neg h4, if_neg h5, if_neg h6]
  rw [if_neg (by push_neg; exact ⟨h7, h8, h9, h10.1⟩)]

end AES67

namespace AES67

/- ============================================================
   Handler round-trip lemmas: each generated line parses back to the
   fields it was generated from.
   ============================================================ -/

theorem parseOriginLine_round (s0 : SDPSession) (u nt at2 addr : Str) (sid sver : Nat)
    (hu : noWs u) (hnt : noWs nt) (hat : noWs at2) (haddr : noWs addr)
    (haddr0 : addr ≠ []) (hsid : sid < 2^64) (hsver : sver < 2^64) :
    parseOriginLine
      (u ++ ' ' :: (decRepr sid ++ ' ' :: (decRepr sver ++ ' ' ::
        (nt ++ ' ' :: (at2 ++ ' ' :: addr))))) s0 =
    some { s0 with
      originUsername := u, sessionID := sid, sessionVersion := sver,
      originNetworkType := nt, originAddressType := at2, originAddress := addr } := by
  have hsp : splitString
      (u ++ ' ' :: (decRepr sid ++ ' ' :: (decRepr sver ++ ' ' ::
        (nt ++ ' ' :: (at2 ++ ' ' :: addr))))) ' ' =
      [u, decRepr sid, decRepr sver, nt, at2, addr] := by
    rw [splitString_sep ' ' u _ (not_mem_of_noWs u hu ' ' (by decide))
      (trim_eq_self_of_noWs u hu)]
    rw [splitString_sep ' ' (decRepr sid) _
      (not_mem_of_noWs _ (noWs_decRepr sid) ' ' (by decide)) (decRepr_trim sid)]
    rw [splitString_sep ' ' (decRepr sver) _
      (not_mem_of_noWs _ (noWs_decRepr sver) ' ' (by decide)) (decRepr_trim sver)]
    rw [splitString_sep ' ' nt _ (not_mem_of_noWs nt hnt ' ' (by decide))
      (trim_eq_self_of_noWs nt hnt)]
    rw [splitString_sep ' ' at2 _ (not_mem_of_noWs at2 hat ' ' (by decide))
      (trim_eq_self_of_noWs at2 hat)]
    rw [splitString_last ' ' addr haddr0 (not_mem_of_noWs addr haddr ' ' (by decide))
      (trim_eq_self_of_noWs addr haddr)]
  simp only [parseOriginLine, hsp, List.length_cons, List.length_nil,
    List.getD_cons_zero, List.getD_cons_succ]
  rw [if_neg (by omega)]
  rw [stoullM_decRepr sid hsid, stoullM_decRepr sver hsver]

theorem parseConnectionLine_round (s0 : SDPSession) (ct cn addr : Str) (ttl : Nat)
    (hct : noWs ct) (hcn : noWs cn) (haddr : noWs addr)
    (hslash : '/' ∉ addr) (httl : ttl < 256) :
    parseConnectionLine
      (ct ++ ' ' :: (cn ++ ' ' :: (addr ++ '/' :: decRepr ttl))) s0 =
    some { s0 with
      connectionType := ct, connectionNetwork := cn,
      connectionAddress := addr, ttl := ttl } := by
  have hlast : noWs (addr ++ '/' :: decRepr ttl) :=
    noWs_append _ _ haddr (noWs_cons '/' _ (by decide) (noWs_decRepr ttl))
  have hsp : splitString (ct ++ ' ' :: (cn ++ ' ' :: (addr ++ '/' :: decRepr ttl))) ' ' =
      [ct, cn, addr ++ '/' :: decRepr ttl] := by
    rw [splitString_sep ' ' ct _ (not_mem_of_noWs ct hct ' ' (by decide))
      (trim_eq_self_of_noWs ct hct)]
    rw [splitString_sep ' ' cn _ (not_mem_of_noWs cn hcn ' ' (by decide))
      (trim_eq_self_of_noWs cn hcn)]
    rw [splitString_last ' ' _ (by simp) (not_mem_of_noWs _ hlast ' ' (by decide))
      (trim_eq_self_of_noWs _ hlast)]
  simp only [parseConnectionLine, hsp, List.length_cons, List.length_nil,
    List.getD_cons_zero, List.getD_cons_succ]
  rw [if_neg (by omega)]
  rw [splitAtFirst_found '/' addr (decRepr ttl) hslash]
  dsimp only
  rw [stoiM_decRepr ttl (by omega)]
  dsimp only
  have : (((ttl : Nat) : Int) % 256).toNat = ttl := by omega
  rw [this]

theorem parseTimingLine_round (s0 : SDPSession) (t1 t2 : Nat)
    (h1 : t1 < 2^64) (h2 : t2 < 2^64) :
    parseTimingLine (decRepr t1 ++ ' ' :: decRepr t2) s0 =
      some { s0 with timeStart := t1, timeStop := t2 } := by
  have hsp : splitString (decRepr t1 ++ ' ' :: decRepr t2) ' ' =
      [decRepr t1, decRepr t2] := by
    rw [splitString_sep ' ' (decRepr t1) _
      (not_mem_of_noWs _ (noWs_decRepr t1) ' ' (by decide)) (decRepr_trim t1)]
    rw [splitString_last ' ' (decRepr t2) (decRepr_ne_nil t2)
      (not_mem_of_noWs _ (noWs_decRepr t2) ' ' (by decide)) (decRepr_trim t2)]
  simp only [parseTimingLine, hsp, List.length_cons, List.length_nil,
    List.getD_cons_zero, List.getD_cons_succ]
  rw [if_neg (by omega)]
  rw [stoullM_decRepr t1 h1, stoullM_decRepr t2 h2]

theorem parseMediaLine_round (s0 : SDPSession) (mt tr : Str) (port pt : Nat)
    (hmt : noWs mt) (htr : noWs tr) (hport : port < 65536) (hpt : pt < 256) :
    parseMediaLine
      (mt ++ ' ' :: (decRepr port ++ ' ' :: (tr ++ ' ' :: decRepr pt))) s0 =
    some { s0 with
      mediaType := mt, port := port, transport := tr, payloadType := pt } := by
  have hsp : splitString (mt ++ ' ' :: (decRepr port ++ ' ' :: (tr ++ ' ' :: decRepr pt))) ' ' =
      [mt, decRepr port, tr, decRepr pt] := by
    rw [splitString_sep ' ' mt _ (not_mem_of_noWs mt hmt ' ' (by decide))
      (trim_eq_self_of_noWs mt hmt)]
    rw [splitString_sep ' ' (decRepr port) _
      (not_mem_of_noWs _ (noWs_decRepr port) ' ' (by decide)) (decRepr_trim port)]
    rw [splitString_sep ' ' tr _ (not_mem_of_noWs tr htr ' ' (by decide))
      (trim_eq_self_of_noWs tr htr)]
    rw [splitString_last ' ' (decRepr pt) (decRepr_ne_nil pt)
      (not_mem_of_noWs _ (noWs_decRepr pt) ' ' (by decide)) (decRepr_trim pt)]
  simp only [parseMediaLine, hsp, List.length_cons, List.length_nil,
    List.getD_cons_zero, List.getD_cons_succ]
  rw [if_neg (by omega)]
  rw [stoiM_decRepr port (by omega), stoiM_decRepr pt (by omega)]
  dsimp only
  have hp : (((port : Nat) : Int) % 65536).toNat = port := by omega
  have hq : (((pt : Nat) : Int) % 256).toNat = pt := by omega
  rw [hp, hq]

theorem parseRTPMapAttribute_round (s0 : SDPSession) (enc : Str) (pt rate nch : Nat)
    (henc : noWs enc) (hslash : '/' ∉ enc)
    (hrate : rate < 2^32) (hnch : nch < 65536) :
    parseRTPMapAttribute
      (decRepr pt ++ ' ' :: (enc ++ '/' :: (decRepr rate ++ '/' :: decRepr nch))) s0 =
    some { s0 with encoding := enc, sampleRate := rate, numChannels := nch } := by
  have htok : noWs (enc ++ '/' :: (decRepr rate ++ '/' :: decRepr nch)) :=
    noWs_append _ _ henc (noWs_cons '/' _ (by decide)
      (noWs_append _ _ (noWs_decRepr rate) (noWs_cons '/' _ (by decide) (noWs_decRepr nch))))
  have hsp : splitString
      (decRepr pt ++ ' ' :: (enc ++ '/' :: (decRepr rate ++ '/' :: decRepr nch))) ' ' =
      [decRepr pt, enc ++ '/' :: (decRepr rate ++ '/' :: decRepr nch)] := by
    rw [splitString_sep ' ' (decRepr pt) _
      (not_mem_of_noWs _ (noWs_decRepr pt) ' ' (by decide)) (decRepr_trim pt)]
    rw [splitString_last ' ' _ (by simp) (not_mem_of_noWs _ htok ' ' (by decide))
      (trim_eq_self_of_noWs _ htok)]
  have hfp : splitString (enc ++ '/' :: (decRepr rate ++ '/' :: decRepr nch)) '/' =
      [enc, decRepr rate, decRepr nch] := by
    rw [splitString_sep '/' enc _ hslash (trim_eq_self_of_noWs enc henc)]
    rw [splitString_sep '/' (decRepr rate) _
      (fun hm => (decRepr_not_mem rate '/' hm).2.2.1 rfl) (decRepr_trim rate)]
    rw [splitString_last '/' (decRepr nch) (decRepr_ne_nil nch)
      (fun hm => (decRepr_not_mem nch '/' hm).2.2.1 rfl) (decRepr_trim nch)]
  simp only [parseRTPMapAttribute, hsp, hfp, List.length_cons, List.length_nil,
    List.getD_cons_zero, List.getD_cons_succ]
  rw [stoulM_decRepr rate (by omega)]
  dsimp only
  rw [if_pos (show 3 ≤ 0 + 1 + 1 + 1 by omega)]
  rw [stoiM_decRepr nch (by omega)]
  dsimp only
  have h1 : rate % 2^32 = rate := Nat.mod_eq_of_lt hrate
  have h2 : (((nch : Nat) : Int) % 65536).toNat = nch := by omega
  rw [h1, h2, if_neg (by omega), if_neg (by omega)]

theorem parsePTimeAttribute_round (s0 : SDPSession) (p : Nat) (hp : p < 2^32) :
    parsePTimeAttribute (decRepr p) s0 = some { s0 with ptime := p } := by
  simp only [parsePTimeAttribute, stoulM_decRepr p (by omega)]
  rw [Nat.mod_eq_of_lt hp]

theorem parseFrameCountAttribute_round (s0 : SDPSession) (p : Nat) (hp : p < 2^32) :
    parseFrameCountAttribute (decRepr p) s0 = some { s0 with framecount := p } := by
  simp only [parseFrameCountAttribute, stoulM_decRepr p (by omega)]
  rw [Nat.mod_eq_of_lt hp]

theorem parseSourceFilterAttribute_round (s0 : SDPSession) (conn src : Str)
    (hconn : noWs conn) (hsrc : noWs src) (hsrc0 : src ≠ []) :
    parseSourceFilterAttribute
      (" incl IN IP4 ".toList ++ (conn ++ ' ' :: src)) s0 =
    some { s0 with sourceAddress := conn } := by
  have hform : " incl IN IP4 ".toList ++ (conn ++ ' ' :: src) =
      [] ++ ' ' :: ("incl".toList ++ ' ' :: ("IN".toList ++ ' ' ::
        ("IP4".toList ++ ' ' :: (conn ++ ' ' :: src)))) := rfl
  have hsp : splitString (" incl IN IP4 ".toList ++ (conn ++ ' ' :: src)) ' ' =
      [[], "incl".toList, "IN".toList, "IP4".toList, conn, src] := by
    rw [hform]
    rw [splitString_sep ' ' [] _ (by decide) rfl]
    rw [splitString_sep ' ' "incl".toList _ (by decide) (by decide)]
    rw [splitString_sep ' ' "IN".toList _ (by decide) (by decide)]
    rw [splitString_sep ' ' "IP4".toList _ (by decide) (by decide)]
    rw [splitString_sep ' ' conn _ (not_mem_of_noWs conn hconn ' ' (by decide))
      (trim_eq_self_of_noWs conn hconn)]
    rw [splitString_last ' ' src hsrc0 (not_mem_of_noWs src hsrc ' ' (by decide))
      (trim_eq_self_of_noWs src hsrc)]
  simp only [parseSourceFilterAttribute, hsp, List.length_cons, List.length_nil,
    List.getD_cons_zero, List.getD_cons_succ]
  rw [if_pos (by omega)]

end AES67

namespace AES67

/- ============================================================
   ts-refclk matcher lemmas.
   ============================================================ -/

theorem drop_append_plus (xs ys : Str) (k : Nat) :
    (xs ++ ys).drop (xs.length + k) = ys.drop k := by
  rw [← List.drop_drop, List.drop_left]

theorem startsWith_append (pre x : Str) : startsWith (pre ++ x) pre = true := by
  unfold startsWith
  rw [List.take_left]
  exact beq_self_eq_true pre

theorem ptpBacktrack_succ (rest : Str) (len : Nat) :
    ptpBacktrack rest (len + 1) =
      if startsWith (rest.drop (len + 1)) ":domain-nmbr=".toList then
        (if ((rest.drop (len + 1)).drop 13).takeWhile isDigitC = [] then
          ptpBacktrack rest len
        else some (rest.take (len + 1), ((rest.drop (len + 1)).drop 13).takeWhile isDigitC))
      else ptpBacktrack rest len := rfl

theorem ptpSearch_here (X : Str) :
    ptpSearch ("ptp=IEEE1588-2008:".toList ++ X) =
      match ptpBacktrack X (X.takeWhile isPTPClassChar).length with
      | some r => some r
      | none => ptpSearch ("tp=IEEE1588-2008:".toList ++ X) := rfl

theorem startsWith_o_false (t : Str) :
    startsWith ('o' :: t) ":domain-nmbr=".toList = false := rfl

theorem startsWith_d_false (t : Str) :
    startsWith ('d' :: t) ":domain-nmbr=".toList = false := rfl

theorem takeWhile_class_run (t : Str) :
    (':' :: 'd' :: 'o' :: t).takeWhile isPTPClassChar = [':', 'd'] := rfl

theorem ptpSearch_round (mac ds : Str) (hmac0 : mac ≠ [])
    (hmac : ∀ c ∈ mac, isPTPClassChar c = true)
    (hds : ∀ c ∈ ds, isDigitC c = true) (hds0 : ds ≠ []) :
    ptpSearch ("ptp=IEEE1588-2008:".toList ++ (mac ++ (":domain-nmbr=".toList ++ ds))) =
      some (mac, ds) := by
  have hX : mac ++ (":domain-nmbr=".toList ++ ds) =
      mac ++ (':' :: 'd' :: 'o' :: ("main-nmbr=".toList ++ ds)) := rfl
  have hrun : (mac ++ (":domain-nmbr=".toList ++ ds)).takeWhile isPTPClassChar =
      mac ++ [':', 'd'] := by
    rw [hX, takeWhile_append_all isPTPClassChar mac _ hmac, takeWhile_class_run]
  have hlen : ((mac ++ (":domain-nmbr=".toList ++ ds)).takeWhile isPTPClassChar).length =
      mac.length + 2 := by
    rw [hrun, List.length_append]
    rfl
  have hdrop2 : (mac ++ (":domain-nmbr=".toList ++ ds)).drop (mac.length + 2) =
      'o' :: ("main-nmbr=".toList ++ ds) := by
    rw [hX, drop_append_plus]
    rfl
  have hdrop1 : (mac ++ (":domain-nmbr=".toList ++ ds)).drop (mac.length + 1) =
      'd' :: 'o' :: ("main-nmbr=".toList ++ ds) := by
    rw [hX, drop_append_plus]
    rfl
  have hdrop0 : (mac ++ (":domain-nmbr=".toList ++ ds)).drop mac.length =
      ":domain-nmbr=".toList ++ ds := by
    have h0 := drop_append_plus mac (":domain-nmbr=".toList ++ ds) 0
    rw [Nat.add_zero] at h0
    exact h0
  obtain ⟨m0, ms⟩ : ∃ m0 ms, mac = m0 :: ms := by
    cases hm : mac with
    | nil => exact absurd hm hmac0
    | cons m0 ms => exact ⟨m0, ms, rfl⟩
  obtain ⟨ms, hm⟩ := ms
  have hlen1 : mac.length = ms.length + 1 := by rw [hm]; rfl
  have hbt : ptpBacktrack (mac ++ (":domain-nmbr=".toList ++ ds)) (mac.length + 2) =
      some (mac, ds) := by
    rw [show mac.length + 2 = (mac.length + 1) + 1 from rfl, ptpBacktrack_succ]
    rw [hdrop2, startsWith_o_false, if_neg (by simp)]
    rw [show mac.length + 1 = mac.length + 0 + 1 from rfl, ptpBacktrack_succ]
    rw [show mac.length + 0 + 1 = mac.length + 1 from rfl, hdrop1, startsWith_d_false,
      if_neg (by simp)]
    rw [hlen1, ptpBacktrack_succ, ← hlen1, hdrop0]
    rw [startsWith_append, if_pos rfl]
    have hdrop13 : (":domain-nmbr=".toList ++ ds).drop 13 = ds :=
      List.drop_left ":domain-nmbr=".toList ds
    rw [hdrop13, takeWhile_eq_self_of isDigitC ds hds, if_neg hds0]
    rw [List.take_left]
  rw [ptpSearch_here, hlen, hbt]

theorem parsePTPRefClockAttribute_round (s0 : SDPSession) (mac : Str) (dom : Nat)
    (hmac0 : mac ≠ []) (hmac : ∀ c ∈ mac, isPTPClassChar c = true)
    (hdom : dom ≤ 2^31 - 1) :
    parsePTPRefClockAttribute
      ("ptp=IEEE1588-2008:".toList ++ (mac ++ (":domain-nmbr=".toList ++ decRepr dom))) s0 =
    ARes.ok { s0 with ptpMasterMAC := mac, ptpDomain := (dom : Int) } := by
  unfold parsePTPRefClockAttribute
  rw [ptpSearch_round mac (decRepr dom) hmac0 hmac (decRepr_digits dom) (decRepr_ne_nil dom)]
  dsimp only
  rw [digitsVal_decRepr, if_pos hdom]

end AES67

namespace AES67

/- ============================================================
   Validation characterization and segment lemmas for the line loop.
   ============================================================ -/

theorem isValid_iff_conditions (s : SDPSession) :
    s.isValid = true ↔
      (s.sessionName ≠ [] ∧ s.connectionAddress ≠ [] ∧ s.port ≠ 0 ∧
       (s.encoding = "L16".toList ∨ s.encoding = "L24".toList ∨ s.encoding = "AM824".toList) ∧
       s.sampleRate ≠ 0 ∧ s.numChannels ≠ 0) := by
  unfold SDPSession.isValid SDPSession.getValidationErrors
  rw [List.isEmpty_iff]
  constructor
  · intro h
    by_contra hc
    push_neg at hc
    split_ifs at h with h1 h2 h3 h4 h5 h6 <;> simp_all
  · intro ⟨h1, h2, h3, h4, h5, h6⟩
    rw [if_neg h1, if_neg h2, if_neg h3, if_neg (by push_neg; tauto), if_neg h5, if_neg h6]
    rfl

/-- Skipping or consuming the optional i= line. -/
theorem processLines_iOpt (s1 : SDPSession) (info : Str) (rest : List Str)
    (hinfo : info = [] ∨ ('\n' ∉ info ∧ trim info = info)) :
    processLines s1 ((if info ≠ [] then ["i=".toList ++ info] else []) ++ rest) =
      processLines { s1 with sessionInfo := if info = [] then s1.sessionInfo else info } rest := by
  by_cases h : info = []
  · rw [if_neg (by simp [h]), if_pos h, List.nil_append]
  · rw [if_pos h, if_neg h, List.cons_append, List.nil_append, processLines_cons]
    rw [show "i=".toList ++ info = 'i' :: '=' :: info from rfl, processLine_i]
    rcases hinfo with h2 | h2
    · exact absurd h2 h
    · rw [h2.2]

/-- Processing the emitted custom-attribute lines re-inserts exactly the
emitted map when the keys are clean, unrecognized, and arrive in
increasing order above every key already present. -/
theorem processLines_customs (cas : List (Str × Str)) (s1 : SDPSession)
    (hclean : ∀ p ∈ cas, ':' ∉ p.1 ∧
      p.1 ∉ ["rtpmap".toList, "ptime".toList, "framecount".toList,
        "source-filter".toList, "ts-refclk".toList, "mediaclk".toList,
        "recvonly".toList, "sendonly".toList, "sendrecv".toList, "inactive".toList])
    (hsorted : cas.Pairwise (fun a b => ltStr a.1 b.1 = true))
    (hacc : ∀ p ∈ s1.customAttributes, ∀ q ∈ cas, ltStr p.1 q.1 = true) :
    processLines s1 (cas.map (fun kv =>
      if kv.2 = [] then "a=".toList ++ kv.1
      else "a=".toList ++ (kv.1 ++ (":".toList ++ kv.2)))) =
    ARes.ok { s1 with customAttributes := s1.customAttributes ++ cas } := by
  induction cas generalizing s1 with
  | nil =>
    rw [List.map_nil, processLines_nil, List.append_nil]
  | cons p rest ih =>
    obtain ⟨k, v⟩ := p
    have hpc := hclean (k, v) (List.mem_cons_self _ _)
    have hins : mapInsertAttr s1.customAttributes k v = s1.customAttributes ++ [(k, v)] :=
      mapInsert_append_of_gt _ k v
        (fun q hq => hacc q hq (k, v) (List.mem_cons_self _ _))
    have hstep : processLine s1
        (if (k, v).2 = [] then "a=".toList ++ (k, v).1
         else "a=".toList ++ ((k, v).1 ++ (":".toList ++ (k, v).2))) =
        ARes.ok { s1 with customAttributes := s1.customAttributes ++ [(k, v)] } := by
      by_cases hv : v = []
      · subst hv
        rw [if_pos rfl]
        rw [show "a=".toList ++ (k, ([] : Str)).1 = 'a' :: '=' :: k from rfl, processLine_a]
        rw [parseAttributeLine_custom_novalue k s1 hpc.1 hpc.2, hins]
      · rw [if_neg hv]
        have hline : "a=".toList ++ ((k, v).1 ++ (":".toList ++ (k, v).2)) =
            'a' :: '=' :: (k ++ ':' :: v) := rfl
        rw [hline, processLine_a, parseAttributeLine_custom k v s1 hpc.1 hpc.2, hins]
    rw [List.map_cons, processLines_cons, hstep]
    dsimp only
    have hrec := ih { s1 with customAttributes := s1.customAttributes ++ [(k, v)] }
      (fun q hq => (hclean q (List.mem_cons_of_mem _ hq)))
      ((List.pairwise_cons.mp hsorted).2)
      (by
        intro q hq q2 hq2
        show ltStr q.1 q2.1 = true
        rw [List.mem_append] at hq
        cases hq with
        | inl hq => exact hacc q hq q2 (List.mem_cons_of_mem _ hq2)
        | inr hq =>
          rw [List.mem_singleton] at hq
          subst hq
          exact (List.pairwise_cons.mp hsorted).1 q2 hq2)
    rw [hrec]
    rw [List.append_assoc]
    rfl

theorem forall_mem_ite_singleton {P : Str → Prop} (c : Prop) [Decidable c] (x : Str)
    (h : c → P x) : ∀ l ∈ (if c then [x] else []), P l := by
  by_cases hc : c
  · rw [if_pos hc]
    intro l hl
    rw [List.mem_singleton] at hl
    exact hl ▸ h hc
  · rw [if_neg hc]
    intro l hl
    exact absurd hl (List.not_mem_nil l)

end AES67

namespace AES67

/- ============================================================
   Newline/carriage-return freeness, composed per generated line.
   ============================================================ -/

/-- The line is free of the two characters that the line splitter
consumes: newline (the separator) and a trailing carriage return. -/
def NP (l : Str) : Prop := '\n' ∉ l ∧ '\r' ∉ l

theorem NP_append (a b : Str) (ha : NP a) (hb : NP b) : NP (a ++ b) :=
  ⟨notMem_append _ a b ha.1 hb.1, notMem_append _ a b ha.2 hb.2⟩

theorem NP_cons (x : Char) (t : Str) (h1 : x ≠ '\n') (h2 : x ≠ '\r') (ht : NP t) :
    NP (x :: t) :=
  ⟨notMem_cons _ x t (fun he => h1 he.symm) ht.1,
   notMem_cons _ x t (fun he => h2 he.symm) ht.2⟩

theorem NP_of_noWs (t : Str) (h : noWs t) : NP t :=
  ⟨noNL_of_noWs t h, noCR_of_noWs t h⟩

theorem NP_decRepr (n : Nat) : NP (decRepr n) := ⟨noNL_decRepr n, noCR_decRepr n⟩

theorem NP_nil : NP [] := ⟨by simp, by simp⟩

theorem NP_lineOK (l : Str) (h : NP l) : '\n' ∉ l ∧ stripCR l = l :=
  ⟨h.1, stripCR_noCR l h.2⟩

theorem NP_sep (t rest : Str) (h1 : NP t) (h2 : NP rest) : NP (t ++ ' ' :: rest) :=
  NP_append _ _ h1 (NP_cons _ _ (by decide) (by decide) h2)

theorem NP_sepSlash (t rest : Str) (h1 : NP t) (h2 : NP rest) : NP (t ++ '/' :: rest) :=
  NP_append _ _ h1 (NP_cons _ _ (by decide) (by decide) h2)

theorem NP_line2 (c0 c1 : Char) (rest : Str) (h0 : c0 ≠ '\n' ∧ c0 ≠ '\r')
    (h1 : c1 ≠ '\n' ∧ c1 ≠ '\r') (h : NP rest) : NP (c0 :: c1 :: rest) :=
  NP_cons _ _ h0.1 h0.2 (NP_cons _ _ h1.1 h1.2 h)

/- ============================================================
   Optional attribute segments of generateAttributes.
   ============================================================ -/

theorem processLines_sfOpt (s1 : SDPSession) (conn src : Str) (rest : List Str)
    (hconn : noWs conn) (hsrc : src = [] ∨ src = conn) :
    processLines s1
      ((if src ≠ [] then
          ["a=source-filter: incl IN IP4 ".toList ++ (conn ++ (" ".toList ++ src))]
        else []) ++ rest) =
    processLines { s1 with sourceAddress := if src = [] then s1.sourceAddress else conn }
      rest := by
  by_cases h : src = []
  · rw [if_neg (by simp [h]), List.nil_append, if_pos h]
  · have hsc : src = conn := hsrc.resolve_left h
    rw [if_pos h, if_neg h, List.cons_append, List.nil_append, processLines_cons]
    have hline : "a=source-filter: incl IN IP4 ".toList ++ (conn ++ (" ".toList ++ src)) =
        'a' :: '=' :: ("source-filter:".toList ++
          (" incl IN IP4 ".toList ++ (conn ++ ' ' :: src))) := rfl
    rw [hline, processLine_a, parseAttributeLine_sourcefilter,
      parseSourceFilterAttribute_round s1 conn src hconn (hsc ▸ hconn) h]
    rfl

theorem processLines_ptpOpt (s1 : SDPSession) (pmac : Str) (pdom : Int) (rest : List Str)
    (hptp : (pmac = [] ∧ pdom = 0) ∨
            (pmac ≠ [] ∧ 0 ≤ pdom ∧ pdom ≤ 2^31 - 1 ∧
             ∀ c ∈ pmac, isPTPClassChar c = true)) :
    processLines s1
      ((if 0 ≤ pdom ∧ pmac ≠ [] then
          ["a=ts-refclk:ptp=IEEE1588-2008:".toList
            ++ (pmac ++ (":domain-nmbr=".toList ++ decRepr pdom.toNat))]
        else []) ++ rest) =
    processLines { s1 with
      ptpMasterMAC := if pmac = [] then s1.ptpMasterMAC else pmac,
      ptpDomain := if pmac = [] then s1.ptpDomain else pdom } rest := by
  rcases hptp with ⟨hm, hd⟩ | ⟨hm, hd0, hdlt, hcl⟩
  · rw [if_neg (by simp [hm]), List.nil_append, if_pos hm, if_pos hm]
  · rw [if_pos ⟨hd0, hm⟩, List.cons_append, List.nil_append, processLines_cons]
    have hline : "a=ts-refclk:ptp=IEEE1588-2008:".toList
        ++ (pmac ++ (":domain-nmbr=".toList ++ decRepr pdom.toNat)) =
        'a' :: '=' :: ("ts-refclk:".toList ++ ("ptp=IEEE1588-2008:".toList ++
          (pmac ++ (":domain-nmbr=".toList ++ decRepr pdom.toNat)))) := rfl
    rw [hline, processLine_a, parseAttributeLine_tsrefclk,
      parsePTPRefClockAttribute_round s1 pmac pdom.toNat hm hcl (by omega)]
    rw [Int.toNat_of_nonneg hd0]
    rw [if_neg hm, if_neg hm]

theorem processLines_mcOpt (s1 : SDPSession) (mclk : Str) (rest : List Str)
    (hm : mclk ≠ []) :
    processLines s1
      ((if mclk ≠ [] then ["a=mediaclk:".toList ++ mclk] else []) ++ rest) =
    processLines { s1 with mediaClockType := mclk } rest := by
  rw [if_pos hm, List.cons_append, List.nil_append, processLines_cons]
  rw [show "a=mediaclk:".toList ++ mclk = 'a' :: '=' :: ("mediaclk:".toList ++ mclk) from rfl]
  rw [processLine_a, parseAttributeLine_mediaclk]
  rfl

end AES67

namespace AES67

/-- Processing the whole emitted attribute block from an accumulated
session with no custom attributes yet. -/
theorem processLines_genAttributes (s s1 : SDPSession)
    (henc : s.encoding = "L16".toList ∨ s.encoding = "L24".toList ∨
            s.encoding = "AM824".toList)
    (hsr : s.sampleRate < 2^32) (hnch : s.numChannels < 65536)
    (hptm : s.ptime < 2^32) (hfc : s.framecount < 2^32)
    (hdir : s.direction = "recvonly".toList ∨ s.direction = "sendonly".toList ∨
            s.direction = "sendrecv".toList ∨ s.direction = "inactive".toList)
    (hsrc : s.sourceAddress = [] ∨ s.sourceAddress = s.connectionAddress)
    (hconn : noWs s.connectionAddress)
    (hptp : (s.ptpMasterMAC = [] ∧ s.ptpDomain = 0) ∨
            (s.ptpMasterMAC ≠ [] ∧ 0 ≤ s.ptpDomain ∧ s.ptpDomain ≤ 2^31 - 1 ∧
             ∀ c ∈ s.ptpMasterMAC, isPTPClassChar c = true))
    (hmclk : s.mediaClockType ≠ [])
    (hcasC : ∀ p ∈ s.customAttributes, ':' ∉ p.1 ∧
      p.1 ∉ ["rtpmap".toList, "ptime".toList, "framecount".toList,
        "source-filter".toList, "ts-refclk".toList, "mediaclk".toList,
        "recvonly".toList, "sendonly".toList, "sendrecv".toList, "inactive".toList])
    (hcasS : s.customAttributes.Pairwise (fun a b => ltStr a.1 b.1 = true))
    (hacc : s1.customAttributes = []) :
    processLines s1 (generateAttributes s) =
      ARes.ok { s1 with
        encoding := s.encoding, sampleRate := s.sampleRate,
        numChannels := s.numChannels, ptime := s.ptime, framecount := s.framecount,
        direction := s.direction,
        sourceAddress := if s.sourceAddress = [] then s1.sourceAddress
                         else s.connectionAddress,
        ptpMasterMAC := if s.ptpMasterMAC = [] then s1.ptpMasterMAC else s.ptpMasterMAC,
        ptpDomain := if s.ptpMasterMAC = [] then s1.ptpDomain else s.ptpDomain,
        mediaClockType := s.mediaClockType,
        customAttributes := s.customAttributes } := by
  have hencW : noWs s.encoding ∧ '/' ∉ s.encoding := by
    rcases henc with h | h | h <;> rw [h] <;> exact ⟨by decide, by decide⟩
  simp only [generateAttributes]
  rw [processLines_cons]
  have hL1 : "a=rtpmap:".toList ++ decRepr s.payloadType ++ " ".toList ++ s.encoding
      ++ "/".toList ++ decRepr s.sampleRate ++ "/".toList ++ decRepr s.numChannels =
      'a' :: '=' :: ("rtpmap:".toList ++ (decRepr s.payloadType ++ ' ' ::
        (s.encoding ++ '/' :: (decRepr s.sampleRate ++ '/' :: decRepr s.numChannels)))) := by
    simp only [List.append_assoc]
    exact rfl
  rw [hL1, processLine_a, parseAttributeLine_rtpmap,
    parseRTPMapAttribute_round s1 s.encoding s.payloadType s.sampleRate s.numChannels
      hencW.1 hencW.2 hsr hnch]
  dsimp only [toARes]
  rw [processLines_cons]
  rw [show "a=ptime:".toList ++ decRepr s.ptime =
    'a' :: '=' :: ("ptime:".toList ++ decRepr s.ptime) from rfl]
  rw [processLine_a, parseAttributeLine_ptime, parsePTimeAttribute_round _ s.ptime hptm]
  dsimp only [toARes]
  rw [processLines_cons]
  rw [show "a=framecount:".toList ++ decRepr s.framecount =
    'a' :: '=' :: ("framecount:".toList ++ decRepr s.framecount) from rfl]
  rw [processLine_a, parseAttributeLine_framecount,
    parseFrameCountAttribute_round _ s.framecount hfc]
  dsimp only [toARes]
  rw [processLines_cons]
  rw [show "a=".toList ++ s.direction = 'a' :: '=' :: s.direction from rfl]
  rw [processLine_a, parseAttributeLine_direction s.direction _ hdir]
  dsimp only
  simp only [List.append_assoc]
  rw [processLines_sfOpt _ s.connectionAddress s.sourceAddress _ hconn hsrc]
  rw [processLines_ptpOpt _ s.ptpMasterMAC s.ptpDomain _ hptp]
  rw [processLines_mcOpt _ s.mediaClockType _ hmclk]
  rw [processLines_customs s.customAttributes _ hcasC hcasS
    (by
      intro p hp q hq
      dsimp only at hp
      rw [hacc] at hp
      exact absurd hp (List.not_mem_nil p))]
  dsimp only
  rw [hacc, List.nil_append]

end AES67

namespace AES67

/- ============================================================
   Emission-cleanliness side conditions for the SDP round trip.
   ============================================================ -/

/-- Side conditions under which generate followed by parseString recovers
the session exactly. Each records a lossy spot of the emit/parse pair:
tokens of space-separated lines must contain no whitespace, numeric fields
must fit the width they were narrowed to, sessionID 0 and ttl 0 change the
emitted form, the source-filter line is reparsed from its fourth
space-separated field (the connection address, because of the space after
the colon), the ts-refclk pair is only emitted for a nonnegative domain
with a nonempty MAC of class characters, mediaclk and direction must be
re-recognized, and custom attributes must be colon-free, unrecognized and
listed in the map order. -/
structure EmitClean (s : SDPSession) : Prop where
  username_noWs : noWs s.originUsername
  networkType_noWs : noWs s.originNetworkType
  addressType_noWs : noWs s.originAddressType
  originAddress_noWs : noWs s.originAddress
  originAddress_ne : s.originAddress ≠ []
  sessionID_pos : s.sessionID ≠ 0
  sessionID_lt : s.sessionID < 2^64
  sessionVersion_lt : s.sessionVersion < 2^64
  name_noNL : '\n' ∉ s.sessionName
  name_trim : trim s.sessionName = s.sessionName
  info_clean : s.sessionInfo = [] ∨ ('\n' ∉ s.sessionInfo ∧ trim s.sessionInfo = s.sessionInfo)
  connType_noWs : noWs s.connectionType
  connNetwork_noWs : noWs s.connectionNetwork
  connAddress_noWs : noWs s.connectionAddress
  connAddress_noSlash : '/' ∉ s.connectionAddress
  ttl_pos : s.ttl ≠ 0
  ttl_lt : s.ttl < 256
  timeStart_lt : s.timeStart < 2^64
  timeStop_lt : s.timeStop < 2^64
  mediaType_noWs : noWs s.mediaType
  transport_noWs : noWs s.transport
  port_lt : s.port < 65536
  payloadType_lt : s.payloadType < 256
  sampleRate_lt : s.sampleRate < 2^32
  numChannels_lt : s.numChannels < 65536
  ptime_lt : s.ptime < 2^32
  framecount_lt : s.framecount < 2^32
  source_ok : s.sourceAddress = [] ∨ s.sourceAddress = s.connectionAddress
  ptp_ok : (s.ptpMasterMAC = [] ∧ s.ptpDomain = 0) ∨
           (s.ptpMasterMAC ≠ [] ∧ 0 ≤ s.ptpDomain ∧ s.ptpDomain ≤ 2^31 - 1 ∧
            ∀ c ∈ s.ptpMasterMAC, isPTPClassChar c = true)
  mediaClock_ne : s.mediaClockType ≠ []
  mediaClock_noNL : '\n' ∉ s.mediaClockType
  mediaClock_noCR : '\r' ∉ s.mediaClockType
  direction_ok : s.direction = "recvonly".toList ∨ s.direction = "sendonly".toList ∨
                 s.direction = "sendrecv".toList ∨ s.direction = "inactive".toList
  customs_sorted : s.customAttributes.Pairwise (fun a b => ltStr a.1 b.1 = true)
  customs_clean : ∀ p ∈ s.customAttributes,
      (':' ∉ p.1 ∧ '\n' ∉ p.1 ∧ '\r' ∉ p.1 ∧ '\n' ∉ p.2 ∧ '\r' ∉ p.2) ∧
      p.1 ∉ ["rtpmap".toList, "ptime".toList, "framecount".toList, "source-filter".toList,
             "ts-refclk".toList, "mediaclk".toList, "recvonly".toList, "sendonly".toList,
             "sendrecv".toList, "inactive".toList]

/-- C6 (amended): for every session that passes validation and satisfies
the EmitClean side conditions (nonzero sessionID and ttl, whitespace-free
tokens, in-range numeric fields, a source filter equal to the connection
address, a well-formed PTP pair, nonempty media clock, recognized
direction, and clean ordered custom attributes), parseString after
generate returns exactly the original session. -/
theorem sdp_roundTrip_clean (s : SDPSession) (timeNow : Nat)
    (hv : s.isValid = true) (hc : EmitClean s) :
    parseString (generate timeNow s) = POut.success s := by
  obtain ⟨hnm0, hca0, hport0, hencOr, hsr0, hnch0⟩ := (isValid_iff_conditions s).mp hv
  have hencW : noWs s.encoding ∧ '/' ∉ s.encoding := by
    rcases hencOr with h | h | h <;> rw [h] <;> exact ⟨by decide, by decide⟩
  have hdirNP : NP s.direction := by
    rcases hc.direction_ok with h | h | h | h <;> rw [h] <;> exact ⟨by decide, by decide⟩
  -- normalized forms of the four structured lines
  have hO : generateOriginLine timeNow s =
      'o' :: '=' :: (s.originUsername ++ ' ' :: (decRepr s.sessionID ++ ' ' ::
        (decRepr s.sessionVersion ++ ' ' :: (s.originNetworkType ++ ' ' ::
          (s.originAddressType ++ ' ' :: s.originAddress))))) := by
    simp only [generateOriginLine, if_neg hc.sessionID_pos, List.append_assoc]
    exact rfl
  have hC : generateConnectionLine s =
      'c' :: '=' :: (s.connectionType ++ ' ' :: (s.connectionNetwork ++ ' ' ::
        (s.connectionAddress ++ '/' :: decRepr s.ttl))) := by
    simp only [generateConnectionLine, if_pos hc.ttl_pos, List.append_assoc]
    exact rfl
  have hT : "t=".toList ++ decRepr s.timeStart ++ " ".toList ++ decRepr s.timeStop =
      't' :: '=' :: (decRepr s.timeStart ++ ' ' :: decRepr s.timeStop) := by
    simp only [List.append_assoc]
    exact rfl
  have hM : generateMediaLine s =
      'm' :: '=' :: (s.mediaType ++ ' ' :: (decRepr s.port ++ ' ' ::
        (s.transport ++ ' ' :: decRepr s.payloadType))) := by
    simp only [generateMediaLine, List.append_assoc]
    exact rfl
  -- every emitted line is free of embedded newlines and survives the
  -- carriage-return strip
  have hAll : ∀ l ∈ generateLines timeNow s, '\n' ∉ l ∧ stripCR l = l := by
    simp only [generateLines, generateAttributes, List.append_assoc]
    refine List.forall_mem_cons.mpr ⟨⟨by decide, by decide⟩, ?_⟩
    refine List.forall_mem_cons.mpr ⟨?_, ?_⟩
    · rw [hO]
      exact NP_lineOK _ (NP_line2 _ _ _ (by decide) (by decide)
        (NP_sep _ _ (NP_of_noWs _ hc.username_noWs)
        (NP_sep _ _ (NP_decRepr _)
        (NP_sep _ _ (NP_decRepr _)
        (NP_sep _ _ (NP_of_noWs _ hc.networkType_noWs)
        (NP_sep _ _ (NP_of_noWs _ hc.addressType_noWs)
          (NP_of_noWs _ hc.originAddress_noWs)))))))
    refine List.forall_mem_cons.mpr ⟨?_, ?_⟩
    · exact ⟨notMem_append _ _ _ (by decide) hc.name_noNL,
        stripCR_of_trim_stable "s=".toList s.sessionName hnm0 hc.name_trim⟩
    refine List.forall_mem_append.mpr ⟨?_, ?_⟩
    · refine forall_mem_ite_singleton _ _ ?_
      intro hinfo
      have h2 := hc.info_clean.resolve_left hinfo
      exact ⟨notMem_append _ _ _ (by decide) h2.1,
        stripCR_of_trim_stable "i=".toList s.sessionInfo hinfo h2.2⟩
    refine List.forall_mem_cons.mpr ⟨?_, ?_⟩
    · rw [hC]
      exact NP_lineOK _ (NP_line2 _ _ _ (by decide) (by decide)
        (NP_sep _ _ (NP_of_noWs _ hc.connType_noWs)
        (NP_sep _ _ (NP_of_noWs _ hc.connNetwork_noWs)
        (NP_sepSlash _ _ (NP_of_noWs _ hc.connAddress_noWs) (NP_decRepr _)))))
    refine List.forall_mem_cons.mpr ⟨?_, ?_⟩
    · exact NP_lineOK _ (NP_append _ _ ⟨by decide, by decide⟩
        (NP_append _ _ (NP_decRepr _)
        (NP_append _ _ ⟨by decide, by decide⟩ (NP_decRepr _))))
    refine List.forall_mem_cons.mpr ⟨?_, ?_⟩
    · rw [hM]
      exact NP_lineOK _ (NP_line2 _ _ _ (by decide) (by decide)
        (NP_sep _ _ (NP_of_noWs _ hc.mediaType_noWs)
        (NP_sep _ _ (NP_decRepr _)
        (NP_sep _ _ (NP_of_noWs _ hc.transport_noWs) (NP_decRepr _)))))
    refine List.forall_mem_cons.mpr ⟨?_, ?_⟩
    · exact NP_lineOK _ (NP_append _ _ ⟨by decide, by decide⟩
        (NP_append _ _ (NP_decRepr _) (NP_append _ _ ⟨by decide, by decide⟩
        (NP_append _ _ (NP_of_noWs _ hencW.1) (NP_append _ _ ⟨by decide, by decide⟩
        (NP_append _ _ (NP_decRepr _) (NP_append _ _ ⟨by decide, by decide⟩
        (NP_decRepr _))))))))
    refine List.forall_mem_cons.mpr
      ⟨NP_lineOK _ (NP_append _ _ ⟨by decide, by decide⟩ (NP_decRepr _)), ?_⟩
    refine List.forall_mem_cons.mpr
      ⟨NP_lineOK _ (NP_append _ _ ⟨by decide, by decide⟩ (NP_decRepr _)), ?_⟩
    refine List.forall_mem_cons.mpr
      ⟨NP_lineOK _ (NP_append _ _ ⟨by decide, by decide⟩ hdirNP), ?_⟩
    refine List.forall_mem_append.mpr ⟨?_, ?_⟩
    · refine forall_mem_ite_singleton _ _ ?_
      intro hsf
      have hsc := hc.source_ok.resolve_left hsf
      exact NP_lineOK _ (NP_append _ _ ⟨by decide, by decide⟩
        (NP_append _ _ (NP_of_noWs _ hc.connAddress_noWs)
        (NP_append _ _ ⟨by decide, by decide⟩
        (hsc ▸ NP_of_noWs _ hc.connAddress_noWs))))
    refine List.forall_mem_append.mpr ⟨?_, ?_⟩
    · refine forall_mem_ite_singleton _ _ ?_
      intro hco
      have hcl := (hc.ptp_ok.resolve_left (by
        intro hl
        exact hco.2 hl.1)).2.2.2
      have hmacNP : NP s.ptpMasterMAC :=
        ⟨fun hm => (ptpClass_not_nl_cr _ (hcl _ hm)).1 rfl,
         fun hm => (ptpClass_not_nl_cr _ (hcl _ hm)).2 rfl⟩
      exact NP_lineOK _ (NP_append _ _ ⟨by decide, by decide⟩
        (NP_append _ _ hmacNP (NP_append _ _ ⟨by decide, by decide⟩ (NP_decRepr _))))
    refine List.forall_mem_append.mpr ⟨?_, ?_⟩
    · refine forall_mem_ite_singleton _ _ ?_
      intro _
      exact NP_lineOK _ (NP_append _ _ ⟨by decide, by decide⟩
        ⟨hc.mediaClock_noNL, hc.mediaClock_noCR⟩)
    · intro l hl
      rw [List.mem_map] at hl
      obtain ⟨p, hp, rfl⟩ := hl
      have hpcl := (hc.customs_clean p hp).1
      by_cases hpv : p.2 = []
      · rw [if_pos hpv]
        exact NP_lineOK _ (NP_append _ _ ⟨by decide, by decide⟩ ⟨hpcl.2.1, hpcl.2.2.1⟩)
      · rw [if_neg hpv]
        exact NP_lineOK _ (NP_append _ _ ⟨by decide, by decide⟩ (NP_append _ _
          ⟨hpcl.2.1, hpcl.2.2.1⟩ (NP_append _ _ ⟨by decide, by decide⟩
          ⟨hpcl.2.2.2.1, hpcl.2.2.2.2⟩)))
  -- run the parser over the emitted lines
  unfold parseString
  have hsl : splitLines (generate timeNow s) = generateLines timeNow s :=
    splitLines_joinNL (generateLines timeNow s) hAll
  rw [hsl]
  simp only [generateLines]
  rw [processLines_cons,
    show processLine ({} : SDPSession) ("v=0".toList) = ARes.ok {} from rfl]
  dsimp only
  rw [hO, processLines_cons, processLine_o,
    parseOriginLine_round _ _ _ _ _ _ _ hc.username_noWs hc.networkType_noWs
      hc.addressType_noWs hc.originAddress_noWs hc.originAddress_ne
      hc.sessionID_lt hc.sessionVersion_lt]
  dsimp only [toARes]
  rw [processLines_cons,
    show "s=".toList ++ s.sessionName = 's' :: '=' :: s.sessionName from rfl,
    processLine_s, hc.name_trim]
  dsimp only
  rw [processLines_iOpt _ s.sessionInfo _ hc.info_clean]
  rw [hC, processLines_cons, processLine_c,
    parseConnectionLine_round _ _ _ _ _ hc.connType_noWs hc.connNetwork_noWs
      hc.connAddress_noWs hc.connAddress_noSlash hc.ttl_lt]
  dsimp only [toARes]
  rw [hT, processLines_cons, processLine_t,
    parseTimingLine_round _ _ _ hc.timeStart_lt hc.timeStop_lt]
  dsimp only [toARes]
  rw [hM, processLines_cons, processLine_m,
    parseMediaLine_round _ _ _ _ _ hc.mediaType_noWs hc.transport_noWs
      hc.port_lt hc.payloadType_lt]
  dsimp only [toARes]
  rw [processLines_genAttributes s _ hencOr hc.sampleRate_lt hc.numChannels_lt
    hc.ptime_lt hc.framecount_lt hc.direction_ok hc.source_ok hc.connAddress_noWs
    hc.ptp_ok hc.mediaClock_ne (fun p hp => ⟨(hc.customs_clean p hp).1.1,
      (hc.customs_clean p hp).2⟩) hc.customs_sorted rfl]
  dsimp only
  have hIf1 : (if s.sessionInfo = [] then ([] : Str) else s.sessionInfo) = s.sessionInfo := by
    by_cases h : s.sessionInfo = []
    · rw [if_pos h, h]
    · rw [if_neg h]
  have hIf2 : (if s.sourceAddress = [] then ([] : Str) else s.connectionAddress) =
      s.sourceAddress := by
    rcases hc.source_ok with h | h
    · rw [if_pos h, h]
    · by_cases h0 : s.sourceAddress = []
      · rw [if_pos h0, h0]
      · rw [if_neg h0]
        exact h.symm
  have hIf3 : (if s.ptpMasterMAC = [] then ([] : Str) else s.ptpMasterMAC) =
      s.ptpMasterMAC := by
    by_cases h : s.ptpMasterMAC = []
    · rw [if_pos h, h]
    · rw [if_neg h]
  have hIf4 : (if s.ptpMasterMAC = [] then (0 : Int) else s.ptpDomain) = s.ptpDomain := by
    rcases hc.ptp_ok with ⟨hm, hd⟩ | ⟨hm, _, _, _⟩
    · rw [if_pos hm, hd]
    · rw [if_neg hm]
  rw [hIf1, hIf2, hIf3, hIf4]
  show (if s.isValid = true then POut.success s else POut.failure) = POut.success s
  rw [if_pos hv]

end AES67

namespace AES67

/-- A session that passes validation but has ttl = 0: generate omits the
"/ttl" suffix on the c= line, and parsing the result leaves the ttl member
initializer 32 in place. -/
def sdpZeroTTL : SDPSession :=
  { sessionName := "Stream".toList,
    connectionAddress := "239.69.83.171".toList,
    originAddress := "192.168.1.10".toList,
    sessionID := 1,
    ttl := 0 }

/-- C6 counterexample: sdpZeroTTL passes validation, yet
parseString (generate sdpZeroTTL) yields a session whose ttl is 32, not
the original 0 — generateConnectionLine only appends "/ttl" when ttl is
nonzero, and parseConnectionLine leaves the default 32 when no slash is
present, so the claimed round trip fails on a valid descriptor. -/
theorem sdp_roundTrip_fails_for_zero_ttl :
    sdpZeroTTL.isValid = true ∧
    parseString (generate 0 sdpZeroTTL) =
      POut.success { sdpZeroTTL with ttl := 32 } ∧
    ({ sdpZeroTTL with ttl := 32 } : SDPSession) ≠ sdpZeroTTL := by
  refine ⟨by decide, ?_, by decide⟩
  decide

/-- A fully populated clean session for the round-trip witness. -/
def sdpRTW : SDPSession :=
  { sessionName := "Riedel Panel 1".toList,
    sessionInfo := "AES67 Stream".toList,
    sessionID := 42, sessionVersion := 3,
    originUsername := "-".toList,
    originAddress := "192.168.1.10".toList,
    connectionAddress := "239.69.83.171".toList, ttl := 15,
    timeStart := 0, timeStop := 0,
    mediaType := "audio".toList, port := 5004,
    transport := "RTP/AVP".toList, payloadType := 96,
    encoding := "L24".toList, sampleRate := 48000, numChannels := 8,
    ptime := 1, framecount := 48,
    sourceAddress := "239.69.83.171".toList,
    ptpDomain := 7, ptpMasterMAC := "00-1B-21-AC-B5-4F".toList,
    mediaClockType := "direct=0".toList, direction := "sendonly".toList,
    customAttributes := [("x-custom".toList, "1".toList), ("y-flag".toList, [])] }

/-- Witness for the amended C6 theorem at a fully populated session:
both hypotheses hold by evaluation and the round trip returns it. -/
theorem sdp_roundTrip_clean_witness :
    sdpRTW.isValid = true ∧ EmitClean sdpRTW ∧
    parseString (generate 99 sdpRTW) = POut.success sdpRTW :=
  ⟨by decide, by constructor <;> decide,
   sdp_roundTrip_clean sdpRTW 99 (by decide) (by constructor <;> decide)⟩

end AES67

namespace AES67

/-- C8 (amended): outcome characterization of SDPParser::parseString.
When every line is consumed without a handler rejecting (the loop reaches
the end with session s), the parse succeeds with exactly s iff the six
validation conditions hold (nonempty session name, nonempty connection
address, nonzero port, encoding among L16, L24, AM824, nonzero sample
rate, nonzero channel count), and returns nullopt iff one of them fails.
When some prefix parses fine and the next line makes a handler return
false, the parse returns nullopt regardless of the remaining lines; when
the next line makes parsePTPRefClockAttribute throw, the exception
escapes parseString instead of producing nullopt. -/
theorem parseString_outcome (sdp : Str) :
    (∀ s, processLines {} (splitLines sdp) = ARes.ok s →
      (parseString sdp = POut.success s ↔
        (s.sessionName ≠ [] ∧ s.connectionAddress ≠ [] ∧ s.port ≠ 0 ∧
         (s.encoding = "L16".toList ∨ s.encoding = "L24".toList ∨
          s.encoding = "AM824".toList) ∧
         s.sampleRate ≠ 0 ∧ s.numChannels ≠ 0)) ∧
      (parseString sdp = POut.failure ↔
        ¬(s.sessionName ≠ [] ∧ s.connectionAddress ≠ [] ∧ s.port ≠ 0 ∧
          (s.encoding = "L16".toList ∨ s.encoding = "L24".toList ∨
           s.encoding = "AM824".toList) ∧
          s.sampleRate ≠ 0 ∧ s.numChannels ≠ 0))) ∧
    (∀ pre l post s2, splitLines sdp = pre ++ l :: post →
      processLines {} pre = ARes.ok s2 → processLine s2 l = ARes.bad →
      parseString sdp = POut.failure) ∧
    (∀ pre l post s2, splitLines sdp = pre ++ l :: post →
      processLines {} pre = ARes.ok s2 → processLine s2 l = ARes.exn →
      parseString sdp = POut.thrown) := by
  refine ⟨?_, ?_, ?_⟩
  · intro s h
    unfold parseString
    rw [h]
    dsimp only
    by_cases hval : s.isValid = true
    · rw [if_pos hval]
      constructor
      · exact iff_of_true rfl ((isValid_iff_conditions s).mp hval)
      · exact iff_of_false (by simp) (fun h19 => h19 ((isValid_iff_conditions s).mp hval))
    · rw [if_neg hval]
      constructor
      · exact iff_of_false (by simp)
          (fun hcond => hval ((isValid_iff_conditions s).mpr hcond))
      · exact iff_of_true rfl (fun hcond => hval ((isValid_iff_conditions s).mpr hcond))
  · intro pre l post s2 h1 h2 h3
    unfold parseString
    rw [h1, processLines_append, h2]
    dsimp only
    rw [processLines_cons, h3]
  · intro pre l post s2 h1 h2 h3
    unfold parseString
    rw [h1, processLines_append, h2]
    dsimp only
    rw [processLines_cons, h3]

def sdpThrow8 : Str :=
  "a=ts-refclk:ptp=IEEE1588-2008:AB:domain-nmbr=9999999999\n".toList

/-- C8 counterexample: a ts-refclk line whose domain-nmbr digits exceed
INT_MAX makes std::stoi in parsePTPRefClockAttribute throw out_of_range;
the handler has no try/catch, so parseString neither returns nullopt nor
a session — it throws, contradicting the claimed none-or-session
dichotomy. -/
theorem parseString_throws_on_oversized_ptpDomain :
    parseString sdpThrow8 = POut.thrown := by decide

def sdpGood8 : Str :=
  "v=0\ns=X\nc=IN IP4 239.0.0.1\nm=audio 5004 RTP/AVP 96\n".toList

def sdpGood8Session : SDPSession :=
  { sessionName := "X".toList,
    connectionAddress := "239.0.0.1".toList,
    mediaType := "audio".toList, port := 5004,
    transport := "RTP/AVP".toList, payloadType := 96 }

def sdpBad8 : Str := "v=0\no=x 1\n".toList

/-- Witness for the amended C8 theorem: a complete well-formed SDP string
parses to its populated session via the success characterization, and a
malformed o= line (fewer than six fields) aborts the parse with nullopt
via the abort clause. -/
theorem parseString_outcome_witness :
    parseString sdpGood8 = POut.success sdpGood8Session ∧
    parseString sdpBad8 = POut.failure :=
  ⟨((parseString_outcome sdpGood8).1 sdpGood8Session (by decide)).1.mpr (by decide),
   (parseString_outcome sdpBad8).2.1 ["v=0".toList] "o=x 1".toList [] {}
     (by decide) (by decide) (by decide)⟩

end AES67
